import Mathlib

/-!
Verification development for mt-wg-meshconf (src/src/main.rs), a generator of
per-node MikroTik router configuration for a full WireGuard mesh.

The Rust source is shallowly embedded below.  Machine integers are modelled as
`Nat` with an explicit `% 2 ^ w` at the operations where the source performs
width-limited arithmetic (`u16` port counters and port-range computation,
`u32`/`u128` address increments); `u16`-typed record fields come with explicit
`< 65536` hypotheses where their width matters.  Fallible code (`anyhow`
errors, `?`) is modelled with `Except`; the error constructors carry exactly
the data interpolated into the corresponding `format!` message.  External
collaborators (WireGuard public-key derivation, the process RNG) are modelled
as explicit function parameters (`pk`, `entropy`).
-/

/-- Decidable equality of `Except` results, used to evaluate the concrete
instances below. -/
instance {ε α : Type} [DecidableEq ε] [DecidableEq α] : DecidableEq (Except ε α) :=
  fun a b =>
    match a, b with
    | .ok x, .ok y =>
        if h : x = y then .isTrue (by rw [h]) else .isFalse (by simp [h])
    | .error x, .error y =>
        if h : x = y then .isTrue (by rw [h]) else .isFalse (by simp [h])
    | .ok _, .error _ => .isFalse (by simp)
    | .error _, .ok _ => .isFalse (by simp)

namespace Meshconf

/-- `std::net::IpAddr`: an IPv4 or IPv6 address, as its integer value
(`u32::from_be_bytes` / `u128::from_be_bytes` of the octets). -/
inductive IpAddr where
  | v4 (val : Nat)
  | v6 (val : Nat)
deriving DecidableEq, Repr

/-- The address-family width modulus (2^32 for IPv4, 2^128 for IPv6). -/
def IpAddr.space : IpAddr → Nat
  | .v4 _ => 2 ^ 32
  | .v6 _ => 2 ^ 128

/-- The raw integer value of the address. -/
def IpAddr.val : IpAddr → Nat
  | .v4 v => v
  | .v6 v => v

/-- main.rs lines 350-357: the next point-to-point address,
`(uN::from_be_bytes(octets) + 1).to_be_bytes()`.  The `+ 1` is native
machine arithmetic, so it wraps at the top of the address space
(release-profile semantics; debug builds would panic there). -/
def IpAddr.succ : IpAddr → IpAddr
  | .v4 v => .v4 ((v + 1) % 2 ^ 32)
  | .v6 v => .v6 ((v + 1) % 2 ^ 128)

/-- The address of the same family as `a` whose value is `a.val + n`
(used only under no-overflow hypotheses). -/
def IpAddr.addN (a : IpAddr) (n : Nat) : IpAddr :=
  match a with
  | .v4 v => .v4 (v + n)
  | .v6 v => .v6 (v + n)

/-- Rendering of a `Nat` below 256 as a decimal octet string. -/
def octetStr (n : Nat) : String := toString n

/-- Canonical string form of an address, standing in for Rust's
`IpAddr::to_string()`.  For IPv4 this is exactly the dotted-quad rendering.
For IPv6 Rust compresses zero runs (RFC 5952); we render the eight groups
uncompressed.  Both renderings are injective functions of the address, which
is the only property the duplicate check below depends on: two records
collide on this field exactly when their loopback addresses are equal. -/
def ipString : IpAddr → String
  | .v4 v =>
      String.intercalate "."
        [octetStr (v / 2 ^ 24 % 256), octetStr (v / 2 ^ 16 % 256),
         octetStr (v / 2 ^ 8 % 256), octetStr (v % 256)]
  | .v6 v =>
      String.intercalate ":"
        ((List.range 8).map (fun k => String.mk (Nat.toDigits 16 (v / 2 ^ (16 * (7 - k)) % 2 ^ 16))))

/-- main.rs lines 66-83: one row of the mesh CSV.  `privkey` is the
serialized WireGuard private key (an opaque string here; key generation and
public-key derivation are external collaborators). -/
structure Record where
  name : String
  interface : String
  endpoint : Option String
  loopback : IpAddr
  port_min : Option Nat
  port_max : Option Nat
  keepalive : Option Nat
  privkey : Option String
  vlan : Option (List Nat)
  vlan_ifs : Option (List String)
  ifs_ips : Option (List String)
deriving DecidableEq, Repr

/-- A default record, used only as the out-of-range placeholder of `List.getD`. -/
def dRec : Record :=
  ⟨"", "", none, .v4 0, none, none, none, none, none, none, none⟩

/-! ## The `Check` subcommand (main.rs lines 146-240): the topology validator -/

/-- The failures of the `Check` subcommand.  Each constructor carries exactly
the data interpolated into the corresponding `format!` message (the csv file
path, which prefixes every message, is omitted: it does not depend on the
record set).
* `duplicateField prevLine laterName fieldName laterLine` —
  `"{file}:{prevLine} {laterName}: duplicate {fieldName} found on line {laterLine}"`
  (main.rs lines 186-193);
* `missingPrivkey line name` — `"{file}: {line} {name}: missing privkey"`;
* `invalidPortRange line name` — `"{file}:{line} {name}: invalid port range port_min > port_max"`;
* `insufficientPorts line name nodes range pmin pmax` —
  `"{file}:{line} {name}: needs {nodes} listening ports, but only {range} were allowed ({pmin}-{pmax})"`;
* `missingNetmask line name ip` — `"{file}: {line} {name}: {ip} doesn't have netmask"`. -/
inductive CheckError where
  | duplicateField (prevLine : Nat) (laterName : String) (fieldName : String) (laterLine : Nat)
  | missingPrivkey (line : Nat) (name : String)
  | invalidPortRange (line : Nat) (name : String)
  | insufficientPorts (line : Nat) (name : String) (nodes range pmin pmax : Nat)
  | missingNetmask (line : Nat) (name : String) (ip : String)
deriving DecidableEq, Repr

/-- First-match association-list lookup, modelling `HashMap::get`. -/
def lookupS : List (String × Nat) → String → Option Nat
  | [], _ => none
  | (k, v) :: rest, key => if k = key then some v else lookupS rest key

/-- The four first-seen-line maps of the validator (main.rs lines 157-160),
indexed name / interface / loopback-string / derived public key. -/
structure DupMaps where
  dnames : List (String × Nat)
  difaces : List (String × Nat)
  dloops : List (String × Nat)
  dkeys : List (String × Nat)
deriving DecidableEq, Repr

def emptyMaps : DupMaps := ⟨[], [], [], []⟩

/-- main.rs lines 199-224: the port-budget check for a record having both
`port_min` and `port_max`.  `port_max.checked_sub(port_min)` fails exactly
when `port_max < port_min`; the subsequent `+ 1` is a `u16` addition, hence
the `% 2 ^ 16` (it wraps for the full range `0..=65535`; a debug build would
panic there instead). -/
def portRangeCheck (nodes line : Nat) (name : String) (pmin pmax : Nat) :
    Except CheckError Unit :=
  if pmax < pmin then .error (.invalidPortRange line name)
  else
    let range := (pmax - pmin + 1) % 2 ^ 16
    if range < nodes then .error (.insufficientPorts line name nodes range pmin pmax)
    else .ok ()

/-- The port check fires only when both bounds are present
(`if let Some(port_min) = ... && let Some(port_max) = ...`). -/
def portRangeCheckOpt (nodes line : Nat) (r : Record) : Except CheckError Unit :=
  match r.port_min, r.port_max with
  | some pmin, some pmax => portRangeCheck nodes line r.name pmin pmax
  | _, _ => .ok ()

/-- Does the string contain the character?  Stands in for Rust's
`str::contains("/")`, computed over the character list. -/
def strContains (s : String) (c : Char) : Bool := s.data.contains c

/-- main.rs lines 226-237: every `ifs_ips` entry must contain a `/`. -/
def ifsIpsCheck (line : Nat) (name : String) : List String → Except CheckError Unit
  | [] => .ok ()
  | ip :: rest =>
      if strContains ip '/' then ifsIpsCheck line name rest
      else .error (.missingNetmask line name ip)

/-- main.rs lines 163-237: validation of one record at 1-based csv line
`line`, threading the four duplicate maps.  The order is the source's: the
private key is required while the four field values are collected, then the
four duplicate checks run in array order (name, interface, loopback string,
derived public key), then the port check, then the netmask check.
`pk` is the external public-key derivation (`Privkey::to_string` of the
derived key, unique per private key). -/
def checkRecord (pk : String → String) (nodes line : Nat) (m : DupMaps) (r : Record) :
    Except CheckError DupMaps :=
  match r.privkey with
  | none => .error (.missingPrivkey line r.name)
  | some k =>
    match lookupS m.dnames r.name with
    | some prev => .error (.duplicateField prev r.name "name" line)
    | none =>
      match lookupS m.difaces r.interface with
      | some prev => .error (.duplicateField prev r.name "interface" line)
      | none =>
        match lookupS m.dloops (ipString r.loopback) with
        | some prev => .error (.duplicateField prev r.name "loopback" line)
        | none =>
          match lookupS m.dkeys (pk k) with
          | some prev => .error (.duplicateField prev r.name "privkey" line)
          | none =>
            match portRangeCheckOpt nodes line r with
            | .error e => .error e
            | .ok _ =>
              match ifsIpsCheck line r.name (r.ifs_ips.getD []) with
              | .error e => .error e
              | .ok _ =>
                  .ok ⟨(r.name, line) :: m.dnames, (r.interface, line) :: m.difaces,
                       (ipString r.loopback, line) :: m.dloops, (pk k, line) :: m.dkeys⟩

/-- The validator loop (`for (i, result) in (2..).zip(rdr.deserialize())`). -/
def checkLoop (pk : String → String) (nodes : Nat) :
    Nat → DupMaps → List Record → Except CheckError Unit
  | _, _, [] => .ok ()
  | line, m, r :: rest =>
      match checkRecord pk nodes line m r with
      | .error e => .error e
      | .ok m' => checkLoop pk nodes (line + 1) m' rest

/-- The whole `Check` subcommand over an in-memory record set.  The node
count is `records.len() as u16` (main.rs lines 148-150), hence the
`% 2 ^ 16`; the line counter starts at 2 (line 1 is the csv header). -/
def check (pk : String → String) (records : List Record) : Except CheckError Unit :=
  checkLoop pk (records.length % 2 ^ 16) 2 emptyMaps records

/-! ## The `GenConfig` subcommand (main.rs lines 241-572): the generator

Each node's configuration document is an ordered list of statements.  A
`push_str` of the source contributes its lines as statements: section
headers (`/interface wireguard`, ...), the shared
`remove [find comment="mt-wg-meshconf"]` line, and `add` statements.  Every
`add` statement of the source carries `comment=mt-wg-meshconf`; each `add`
constructor below carries exactly the record- or option-dependent values
interpolated into its `format!` string (fixed literal parameters such as
`mtu=1420` or `allowed-address=0.0.0.0/0` live in the format string and are
not repeated here). -/

/-- One emitted configuration statement. -/
inductive Stmt where
  /-- `# {name} config generated by mt-wg-meshconf at {timestamp}` (the
  timestamp comes from the external clock and is elided). -/
  | genComment (name : String)
  /-- A section header line such as `/interface wireguard`. -/
  | secHeader (path : String)
  /-- `remove [find comment="mt-wg-meshconf"]`. -/
  | removeTag
  /-- `add listen-port={port} mtu=1420 name={ifaceName} private-key="{privkey}" ...` -/
  | addWgIf (listenPort : Nat) (ifaceName : String) (privkey : String)
  /-- `add allowed-address=0.0.0.0/0 endpoint-address={endpoint} endpoint-port={port}
  interface={iface} name={peerName} persistent-keepalive={keepalive}s
  public-key="{pubkey}" ...` -/
  | addWgPeer (endpoint : String) (endpointPort : Nat) (iface : String)
      (peerName : String) (keepalive : Nat) (pubkey : String)
  /-- `add address={addr}/{prefixLen} interface={iface} ...` -/
  | addIpAddr (addr : IpAddr) (prefixLen : Nat) (iface : String)
  /-- `add disabled=no name=ospf-ipv4 router-id={routerId} ...` -/
  | addOspfInstance (routerId : IpAddr)
  /-- `add disabled=no instance=ospf-ipv4 name=area0-ipv4 ...` -/
  | addOspfArea
  /-- `add area=area0-ipv4 disabled=no interfaces=lo passive ...` -/
  | addOspfLoTemplate
  /-- `add area=area0-ipv4 disabled=no interfaces={ifList} type=ptp ...` -/
  | addOspfPtpTemplate (ifList : String)
  /-- `add name=wg-mesh-br vlan-filtering=yes ...` -/
  | addBridge
  /-- `add bridge=wg-mesh-br frame-types=admit-only-untagged-and-priority-tagged
  interface={iface} pvid={pvid} ...` -/
  | addBridgePort (iface : String) (pvid : Nat)
  /-- `add bridge=wg-mesh-br bridge-pvid={vlan} ... local-address={localAddr}
  name=vxlan1000{vlan} vni=1000{vlan} ...` -/
  | addVxlan (vlan : Nat) (localAddr : IpAddr)
  /-- `add as={asNum} disabled=no name=wg-mesh-bgp router-id={routerId} ...` -/
  | addBgpInstance (asNum : Nat) (routerId : IpAddr)
  /-- `add afi=evpn ... local.address={localAddr} .role=ibgp name={connName}
  remote.address={remoteAddr}/32 .as={asNum} ...` -/
  | addBgpConn (localAddr : IpAddr) (connName : String) (remoteAddr : IpAddr) (asNum : Nat)
  /-- `add export.route-targets={asNum}:1000{vlan} ... name=wg-mesh-evpn-1000{vlan}
  vni=1000{vlan} ...` -/
  | addBgpEvpn (asNum : Nat) (vlan : Nat)
  /-- `add interface=wg-mesh-br name=vlan{vlan} vlan-id={vlan} ...` -/
  | addVlanIf (vlan : Nat)
  /-- `add address={ipWithPrefix} interface=vlan{vlan} ...` -/
  | addVlanIp (ipWithPrefix : String) (vlan : Nat)
  /-- `add interface=vlan{vlan} mac-address={mac} name=macvlan-wg-{vlan} ...`;
  `mac` is the 48-bit MAC value, big-endian over the 6 generated bytes. -/
  | addMacvlan (vlan : Nat) (mac : Nat)
  /-- `add interface=macvlan-wg-{vlan} address={addr} ...` -/
  | addAnycastIp (vlan : Nat) (addr : IpAddr)
deriving DecidableEq, Repr

/-- The failures of the `GenConfig` subcommand.  Each constructor is one
`anyhow` message of the source; none of them interpolates any data, so none
of them can name the offending node.
* `noMinPort` — `"no min port set"` (line 286);
* `missingPrivkey` — `"missing privkey"` (lines 295 and 322);
* `noEndpoint` — `"no endpoint address"` (line 317);
* `noVlanIf` — `"no vlan if set"` (line 428);
* `noVlan` — `"no vlan set"` (lines 429, 444, 481, 497, 511);
* `anycastMismatch` — `"Numbers of vlans and anycast addresses don't match"`. -/
inductive GenError where
  | noMinPort
  | missingPrivkey
  | noEndpoint
  | noVlanIf
  | noVlan
  | anycastMismatch
deriving DecidableEq, Repr

/-- The section-header paths emitted by the generator. -/
def wgPath : String := "/interface wireguard"
def wgPeersPath : String := "/interface wireguard peers"
def ipPath : String := "/ip address"
def ospfInstPath : String := "/routing ospf instance"
def ospfAreaPath : String := "/routing ospf area"
def ospfTmplPath : String := "/routing ospf interface-template"
def bridgePath : String := "/interface bridge"
def bridgePortPath : String := "/interface bridge port"
def vxlanPath : String := "/interface vxlan"
def bgpInstPath : String := "/routing bgp instance"
def bgpConnPath : String := "/routing bgp connection"
def bgpEvpnPath : String := "/routing bgp evpn"
def vlanPath : String := "/interface vlan"
def macvlanPath : String := "/interface macvlan"

/-- The per-node documents, keyed by node name (the source's
`HashMap<String, String>` of growing config strings). -/
abbrev Docs := List (String × List Stmt)

/-- A schedule: an ordered list of (node name, statements) append
operations performed on the documents. -/
abbrev Sched := List (String × List Stmt)

/-- `configs.get_mut(&name).unwrap().push_str(...)`: append to the document
of `name`.  (The `unwrap` cannot fail in the source: every appended name is
a record name, and an entry was inserted for every record up front.) -/
def appendDoc (docs : Docs) (name : String) (s : List Stmt) : Docs :=
  match docs with
  | [] => []
  | (n, d) :: rest =>
      if n = name then (n, d ++ s) :: rest else (n, d) :: appendDoc rest name s

/-- Apply a schedule of appends in order. -/
def applySched (docs : Docs) : Sched → Docs
  | [] => docs
  | (n, c) :: rest => applySched (appendDoc docs n c) rest

/-- A per-record schedule: `records.iter().for_each(|r| configs.get_mut(&r.name)...)`. -/
def perRec (records : List Record) (f : Record → List Stmt) : Sched :=
  records.map (fun r => (r.name, f r))

/-- First-match lookup in the port-assignment map
(`HashMap<(String, String), u16>`). -/
def lookupPair : List ((String × String) × Nat) → String × String → Option Nat
  | [], _ => none
  | (k, v) :: rest, key => if k = key then some v else lookupPair rest key

/-- main.rs lines 285-300, inner loop: the per-peer tunnel interfaces of one
server and its `(server, peer) → port` assignments.  Peers with the server's
own name are skipped; the port counter is a `u16` that starts at the
server's `port_min` and is incremented once per emitted peer (wrapping
release-profile semantics, hence the `% 2 ^ 16`; a debug build would panic
at the wrap). -/
def wgIfPeers (s : Record) (port : Nat) :
    List Record → Except GenError (List Stmt × List ((String × String) × Nat))
  | [] => .ok ([], [])
  | peer :: rest =>
      if s.name = peer.name then wgIfPeers s port rest
      else
        match s.privkey with
        | none => .error .missingPrivkey
        | some k =>
          match wgIfPeers s ((port + 1) % 2 ^ 16) rest with
          | .error e => .error e
          | .ok (st, asg) =>
              .ok (.addWgIf port peer.interface k :: st,
                   ((s.name, peer.name), port) :: asg)

/-- main.rs lines 285-300, outer loop: the "server side" config.  Produces
the append schedule and the full port-assignment map, in server order; a
server without `port_min` is fatal. -/
def wgIfStage (records : List Record) :
    List Record → Except GenError (Sched × List ((String × String) × Nat))
  | [] => .ok ([], [])
  | s :: rest =>
      match s.port_min with
      | none => .error .noMinPort
      | some p0 =>
        match wgIfPeers s p0 records with
        | .error e => .error e
        | .ok (st, asg) =>
          match wgIfStage records rest with
          | .error e => .error e
          | .ok (sch, asgs) => .ok ((s.name, st) :: sch, asg ++ asgs)

/-- main.rs lines 310-325, inner loop: the peer entries of one server.  The
peer's endpoint and private key are required; the endpoint port is the
reverse lookup `(peer, server)` into the port map (always present, hence
the benign `getD 0` standing in for the source's `unwrap`); a missing
keepalive defaults to 0. -/
def peerStmts (pk : String → String) (ports : List ((String × String) × Nat))
    (s : Record) : List Record → Except GenError (List Stmt)
  | [] => .ok []
  | peer :: rest =>
      if s.name = peer.name then peerStmts pk ports s rest
      else
        match peer.endpoint with
        | none => .error .noEndpoint
        | some ep =>
          match peer.privkey with
          | none => .error .missingPrivkey
          | some k =>
            match peerStmts pk ports s rest with
            | .error e => .error e
            | .ok st =>
                .ok (.addWgPeer ep ((lookupPair ports (peer.name, s.name)).getD 0)
                      peer.interface peer.name (peer.keepalive.getD 0) (pk k) :: st)

/-- main.rs lines 310-325, outer loop. -/
def peersStage (pk : String → String) (ports : List ((String × String) × Nat))
    (records : List Record) : List Record → Except GenError Sched
  | [] => .ok []
  | s :: rest =>
      match peerStmts pk ports s records with
      | .error e => .error e
      | .ok st =>
        match peersStage pk ports records rest with
        | .error e => .error e
        | .ok sch => .ok ((s.name, st) :: sch)

/-- main.rs lines 337-346: the flat interleaved list of paired records.  For
the record at position `i` the inner iterator is `records.iter().skip(x + i)`
with `x` equal to 1 when the iterator is created (the later `x += 1` does
not affect it), i.e. the records after position `i`; each pair appends
`[a, b]`. -/
def ptpInterfaces : List Record → List Record
  | [] => []
  | a :: rest => rest.flatMap (fun b => [a, b]) ++ ptpInterfaces rest

/-- Successive `IpAddr.succ` values after `cur`. -/
def succChain (cur : IpAddr) : Nat → List IpAddr
  | 0 => []
  | n + 1 => let nxt := cur.succ; nxt :: succChain nxt n

/-- main.rs lines 348-359: the point-to-point address pool.  The start
address is pushed unconditionally, then one successor per remaining slot
(`for _ in 1..interfaces.len()`), so the pool has `max len 1` entries. -/
def ptpAddresses (start : IpAddr) (len : Nat) : List IpAddr :=
  start :: succChain start (len - 1)

/-- `slice::windows(2)`: adjacent pairs. -/
def windows2 (l : List α) : List (α × α) := l.zip l.tail

/-- `Iterator::step_by(2)`: every other element. -/
def stepBy2 : List α → List α
  | [] => []
  | [a] => [a]
  | a :: _ :: rest => a :: stepBy2 rest

/-- main.rs lines 361-365: the iteration
`ptp_addresses.windows(2).zip(interfaces.windows(2)).step_by(2)`, giving for
each pair the two consecutive addresses and the two paired records. -/
def ptpChunks (records : List Record) (start : IpAddr) :
    List ((IpAddr × IpAddr) × (Record × Record)) :=
  stepBy2 ((windows2 (ptpAddresses start (ptpInterfaces records).length)).zip
    (windows2 (ptpInterfaces records)))

/-- main.rs lines 361-375: each chunk appends the lower address bound to the
counterpart's interface on the first record's document, and the higher
address symmetrically on the second's. -/
def ptpSched (records : List Record) (start : IpAddr) : Sched :=
  (ptpChunks records start).flatMap (fun c =>
    [(c.2.1.name, [.addIpAddr c.1.1 31 c.2.2.interface]),
     (c.2.2.name, [.addIpAddr c.1.2 31 c.2.1.interface])])

/-- main.rs lines 396-409: the comma-joined interface list of all other
nodes (a trailing comma is pushed per entry and the last one popped). -/
def ospfIfList (records : List Record) (r : Record) : String :=
  (String.join ((records.filter (fun b => r.name != b.name)).map
    (fun b => b.interface ++ ","))).dropRight 1

/-- main.rs lines 378-410: the four OSPF sub-stages (instance, area,
passive loopback template, point-to-point template). -/
def ospfSched (records : List Record) : Sched :=
  perRec records (fun r => [.secHeader ospfInstPath, .removeTag, .addOspfInstance r.loopback])
    ++ perRec records (fun _ => [.secHeader ospfAreaPath, .removeTag, .addOspfArea])
    ++ perRec records (fun _ => [.secHeader ospfTmplPath, .removeTag, .addOspfLoTemplate])
    ++ perRec records (fun r => [.addOspfPtpTemplate (ospfIfList records r)])

/-- Collect a fallible per-record statement list into a schedule
(`records.iter().try_for_each(...)`). -/
def mapMSched (f : Record → Except GenError (List Stmt)) :
    List Record → Except GenError Sched
  | [] => .ok []
  | r :: rest =>
      match f r with
      | .error e => .error e
      | .ok st =>
        match mapMSched f rest with
        | .error e => .error e
        | .ok sch => .ok ((r.name, st) :: sch)

/-- main.rs lines 427-434: the bridge ports of one record, from the
positional pairing `vlan_ifs.iter().zip(vlan)` (zip truncates to the
shorter list; no length check is made). -/
def bridgePortStmts (r : Record) : Except GenError (List Stmt) :=
  match r.vlan_ifs with
  | none => .error .noVlanIf
  | some ifs =>
    match r.vlan with
    | none => .error .noVlan
    | some vs => .ok ((ifs.zip vs).map (fun p => .addBridgePort p.1 p.2))

/-- main.rs lines 443-448: one VXLAN interface per VLAN entry. -/
def vxlanStmts (r : Record) : Except GenError (List Stmt) :=
  match r.vlan with
  | none => .error .noVlan
  | some vs => .ok (vs.map (fun v => .addVxlan v r.loopback))

/-- main.rs lines 461-471: one iBGP connection per other node. -/
def bgpConnStmts (asNum : Nat) (records : List Record) (r : Record) : List Stmt :=
  (records.filter (fun b => r.name != b.name)).map
    (fun b => .addBgpConn r.loopback b.interface b.loopback asNum)

/-- main.rs lines 480-485: one EVPN instance per VLAN entry. -/
def bgpEvpnStmts (asNum : Nat) (r : Record) : Except GenError (List Stmt) :=
  match r.vlan with
  | none => .error .noVlan
  | some vs => .ok (vs.map (fun v => .addBgpEvpn asNum v))

/-- main.rs lines 413-486: the EVPN block (bridge, bridge ports, VXLAN,
BGP instance, iBGP connections, EVPN instances), in source order; the
fallible sub-stages are evaluated in the order the source reaches them. -/
def evpnSched (asNum : Nat) (records : List Record) : Except GenError Sched :=
  match mapMSched bridgePortStmts records with
  | .error e => .error e
  | .ok bp =>
    match mapMSched vxlanStmts records with
    | .error e => .error e
    | .ok vx =>
      match mapMSched (bgpEvpnStmts asNum) records with
      | .error e => .error e
      | .ok ev =>
          .ok (perRec records (fun _ => [.secHeader bridgePath, .removeTag, .addBridge])
            ++ perRec records (fun _ => [.secHeader bridgePortPath, .removeTag])
            ++ bp
            ++ perRec records (fun _ => [.secHeader vxlanPath, .removeTag])
            ++ vx
            ++ perRec records (fun r =>
                 [.secHeader bgpInstPath, .removeTag, .addBgpInstance asNum r.loopback])
            ++ perRec records (fun _ => [.secHeader bgpConnPath, .removeTag])
            ++ perRec records (fun r => bgpConnStmts asNum records r)
            ++ perRec records (fun _ => [.secHeader bgpEvpnPath, .removeTag])
            ++ ev)

/-- main.rs lines 496-501: one VLAN sub-interface per VLAN entry (this
stage is unconditional — it is outside the `if *evpn` block — and requires
`vlan` on every record). -/
def vlanIfStmts (r : Record) : Except GenError (List Stmt) :=
  match r.vlan with
  | none => .error .noVlan
  | some vs => .ok (vs.map (fun v => .addVlanIf v))

/-- main.rs lines 507-520: VLAN IP addresses from the positional pairing
`ifs_ips.iter().zip(vlan)`; nothing is emitted (and `vlan` is not demanded)
when `ifs_ips` is absent. -/
def vlanIpStmts (r : Record) : Except GenError (List Stmt) :=
  match r.ifs_ips with
  | none => .ok []
  | some ips =>
    match r.vlan with
    | none => .error .noVlan
    | some vs => .ok ((ips.zip vs).map (fun p => .addVlanIp p.1 p.2))

/-- main.rs lines 543-547: the anycast MAC for one VLAN.  `entropy k` is
the 6 random bytes of the `k`-th `rng.fill_bytes` call, as a big-endian
48-bit value; the first byte gets its locally-administered bit set
(`|= 0x02`) and its multicast bit cleared (`&= 0xFE`). -/
def mkMac (v : Nat) : Nat :=
  ((v / 2 ^ 40 % 256 ||| 2) &&& 254) * 2 ^ 40 + v % 2 ^ 40

/-- main.rs lines 542-553: one MAC per listed VLAN (in list order, one RNG
fill per VLAN), the identical MAC appended to every node's document. -/
def macvlanSched (entropy : Nat → Nat) (records : List Record) (vlans : List Nat) : Sched :=
  vlans.enum.flatMap (fun kv =>
    perRec records (fun _ => [.addMacvlan kv.2 (mkMac (entropy kv.1))]))

/-- main.rs lines 522-567: the anycast block, run only when both option
lists are supplied; mismatched lengths are fatal. -/
def anycastSched (entropy : Nat → Nat) (records : List Record)
    (cliVlans : Option (List Nat)) (anycastAddrs : Option (List IpAddr)) :
    Except GenError Sched :=
  match cliVlans, anycastAddrs with
  | some vs, some ads =>
      if vs.length ≠ ads.length then .error .anycastMismatch
      else
        .ok (perRec records (fun _ => [.secHeader macvlanPath, .removeTag])
          ++ macvlanSched entropy records vs
          ++ perRec records (fun _ => [.secHeader ipPath])
          ++ perRec records (fun _ =>
               (vs.zip ads).map (fun p => .addAnycastIp p.1 p.2)))
  | _, _ => .ok []

/-- The result of a successful generation run: the port-assignment map and
the per-node documents (nothing is printed on failure — the documents are
emitted only after every stage has completed, main.rs lines 569-571). -/
structure GenOut where
  ports : List ((String × String) × Nat)
  docs : Docs
deriving DecidableEq, Repr

/-- main.rs lines 241-572: the whole `GenConfig` run over an in-memory
record set.  `pk` is the external public-key derivation, `entropy` the
process RNG (6 bytes per call, big-endian).  Stages run in source order;
the first failure aborts the run with no documents produced. -/
def genConfig (pk : String → String) (entropy : Nat → Nat) (ptpStart : IpAddr)
    (ospf evpn : Bool) (asNum : Nat) (cliVlans : Option (List Nat))
    (anycastAddrs : Option (List IpAddr)) (records : List Record) :
    Except GenError GenOut :=
  let docs0 : Docs := records.map (fun r => (r.name, [Stmt.genComment r.name]))
  let s1 := perRec records (fun _ => [.secHeader wgPath, .removeTag])
  match wgIfStage records records with
  | .error e => .error e
  | .ok (s2, ports) =>
    let s3 := perRec records (fun _ => [.secHeader wgPeersPath, .removeTag])
    match peersStage pk ports records records with
    | .error e => .error e
    | .ok s4 =>
      let s5 := perRec records (fun r =>
        [.secHeader ipPath, .removeTag, .addIpAddr r.loopback 32 "lo"])
      let s6 := ptpSched records ptpStart
      let s7 := if ospf then ospfSched records else []
      match (if evpn then evpnSched asNum records else .ok []) with
      | .error e => .error e
      | .ok s8 =>
        let s9 := perRec records (fun _ => [.secHeader vlanPath, .removeTag])
        match mapMSched vlanIfStmts records with
        | .error e => .error e
        | .ok s10 =>
          let s11 := perRec records (fun _ => [.secHeader ipPath])
          match mapMSched vlanIpStmts records with
          | .error e => .error e
          | .ok s12 =>
            match anycastSched entropy records cliVlans anycastAddrs with
            | .error e => .error e
            | .ok s13 =>
                .ok ⟨ports, applySched docs0
                  (s1 ++ s2 ++ s3 ++ s4 ++ s5 ++ s6 ++ s7 ++ s8
                    ++ s9 ++ s10 ++ s11 ++ s12 ++ s13)⟩

/-! ## Closed forms

Per-node closed forms of the generator's output, used on the right-hand
side of the characterization theorems below.  They are deliberately written
with index-based maps rather than the source's mutable counters. -/

/-- Map with an explicit running index. -/
def idxMap (f : Nat → α → β) : Nat → List α → List β
  | _, [] => []
  | b, a :: rest => f b a :: idxMap f (b + 1) rest

/-- The records whose name differs from `r`'s, in record order (the loops
`for peer in &records { if r.name == peer.name { continue } ... }`). -/
def others (records : List Record) (r : Record) : List Record :=
  records.filter (fun b => r.name != b.name)

/-- Closed form of one server's port assignments: its peers in record order,
ports counting up from its `port_min` (as a wrapping `u16`). -/
def portsFor (records : List Record) (s : Record) : List ((String × String) × Nat) :=
  idxMap (fun j p => ((s.name, p.name), (s.port_min.getD 0 + j) % 2 ^ 16)) 0
    (others records s)

/-- Closed form of the whole port-assignment map, in server order. -/
def portsClosed (records : List Record) : List ((String × String) × Nat) :=
  records.flatMap (portsFor records)

/-- The port-assignment map actually built by the generator's server loop
(`none` when that loop fails). -/
def wgPorts (records : List Record) : Option (List ((String × String) × Nat)) :=
  match wgIfStage records records with
  | .ok (_, ps) => some ps
  | .error _ => none

/-- Closed form of one node's tunnel-interface statements. -/
def wgIfChunk (records : List Record) (r : Record) : List Stmt :=
  idxMap (fun j p =>
      .addWgIf ((r.port_min.getD 0 + j) % 2 ^ 16) p.interface (r.privkey.getD "")) 0
    (others records r)

/-- Closed form of one node's peer statements. -/
def peerChunk (pk : String → String) (records : List Record) (r : Record) : List Stmt :=
  (others records r).map (fun peer =>
    .addWgPeer (peer.endpoint.getD "")
      ((lookupPair (portsClosed records) (peer.name, r.name)).getD 0)
      peer.interface peer.name (peer.keepalive.getD 0) (pk (peer.privkey.getD "")))

/-- Closed form of one node's point-to-point address statements: its side of
every chunk it participates in, in chunk order. -/
def ptpChunk (records : List Record) (start : IpAddr) (r : Record) : List Stmt :=
  (ptpChunks records start).flatMap (fun c =>
    (if c.2.1.name = r.name then [Stmt.addIpAddr c.1.1 31 c.2.2.interface] else [])
      ++ (if c.2.2.name = r.name then [Stmt.addIpAddr c.1.2 31 c.2.1.interface] else []))

/-- Closed form of one node's OSPF statements. -/
def ospfChunk (records : List Record) (r : Record) : List Stmt :=
  [.secHeader ospfInstPath, .removeTag, .addOspfInstance r.loopback,
   .secHeader ospfAreaPath, .removeTag, .addOspfArea,
   .secHeader ospfTmplPath, .removeTag, .addOspfLoTemplate,
   .addOspfPtpTemplate (ospfIfList records r)]

/-- Closed form of one node's bridge-port statements (positional pairing,
truncated to the shorter of `vlan_ifs` and `vlan`). -/
def bridgePortChunk (r : Record) : List Stmt :=
  ((r.vlan_ifs.getD []).zip (r.vlan.getD [])).map (fun p => .addBridgePort p.1 p.2)

/-- Closed form of one node's VXLAN statements. -/
def vxlanChunk (r : Record) : List Stmt :=
  (r.vlan.getD []).map (fun v => .addVxlan v r.loopback)

/-- Closed form of one node's EVPN-instance statements. -/
def bgpEvpnChunk (asNum : Nat) (r : Record) : List Stmt :=
  (r.vlan.getD []).map (fun v => .addBgpEvpn asNum v)

/-- Closed form of one node's whole EVPN block. -/
def evpnChunk (asNum : Nat) (records : List Record) (r : Record) : List Stmt :=
  [.secHeader bridgePath, .removeTag, .addBridge,
   .secHeader bridgePortPath, .removeTag]
    ++ bridgePortChunk r
    ++ [.secHeader vxlanPath, .removeTag]
    ++ vxlanChunk r
    ++ [.secHeader bgpInstPath, .removeTag, .addBgpInstance asNum r.loopback,
        .secHeader bgpConnPath, .removeTag]
    ++ bgpConnStmts asNum records r
    ++ [.secHeader bgpEvpnPath, .removeTag]
    ++ bgpEvpnChunk asNum r

/-- Closed form of one node's VLAN sub-interface statements. -/
def vlanIfChunk (r : Record) : List Stmt :=
  (r.vlan.getD []).map (fun v => .addVlanIf v)

/-- Closed form of one node's VLAN IP statements. -/
def vlanIpChunk (r : Record) : List Stmt :=
  ((r.ifs_ips.getD []).zip (r.vlan.getD [])).map (fun p => .addVlanIp p.1 p.2)

/-- Closed form of the per-VLAN anycast MAC statements (one per listed
VLAN, in list order, the `k`-th from the `k`-th RNG fill — so the very same
MAC value on every node). -/
def macvlanChunk (entropy : Nat → Nat) (vs : List Nat) : List Stmt :=
  vs.enum.map (fun kv => .addMacvlan kv.2 (mkMac (entropy kv.1)))

/-- Closed form of one node's anycast block. -/
def anycastChunk (entropy : Nat → Nat) (cliVlans : Option (List Nat))
    (anycastAddrs : Option (List IpAddr)) : List Stmt :=
  match cliVlans, anycastAddrs with
  | some vs, some ads =>
      if vs.length = ads.length then
        [.secHeader macvlanPath, .removeTag]
          ++ macvlanChunk entropy vs
          ++ [.secHeader ipPath]
          ++ (vs.zip ads).map (fun p => .addAnycastIp p.1 p.2)
      else []
  | _, _ => []

/-- Closed form of one node's whole document. -/
def docFor (pk : String → String) (entropy : Nat → Nat) (start : IpAddr)
    (ospf evpn : Bool) (asNum : Nat) (cliVlans : Option (List Nat))
    (anycastAddrs : Option (List IpAddr)) (records : List Record) (r : Record) :
    List Stmt :=
  [.genComment r.name, .secHeader wgPath, .removeTag]
    ++ wgIfChunk records r
    ++ [.secHeader wgPeersPath, .removeTag]
    ++ peerChunk pk records r
    ++ [.secHeader ipPath, .removeTag, .addIpAddr r.loopback 32 "lo"]
    ++ ptpChunk records start r
    ++ (if ospf then ospfChunk records r else [])
    ++ (if evpn then evpnChunk asNum records r else [])
    ++ [.secHeader vlanPath, .removeTag]
    ++ vlanIfChunk r
    ++ [.secHeader ipPath]
    ++ vlanIpChunk r
    ++ anycastChunk entropy cliVlans anycastAddrs

/-- The statements a schedule appends, in order, to the document of `n`. -/
def contrib (n : String) : Sched → List Stmt
  | [] => []
  | (m, c) :: rest => (if m = n then c else []) ++ contrib n rest

/-- The record-order enumeration of unordered pairs described by the spec:
the element at position `i` paired with every element at a later position. -/
def triangularPairs : List α → List (α × α)
  | [] => []
  | a :: rest => rest.map (fun b => (a, b)) ++ triangularPairs rest

/-! ## Document-shape checkers -/

/-- Is this statement a (tagged) `add`?  Every `add` the generator emits
carries `comment=mt-wg-meshconf`. -/
def isTaggedAdd : Stmt → Bool
  | .genComment _ => false
  | .secHeader _ => false
  | .removeTag => false
  | _ => true

/-- State for the per-section remove-before-add check: whether the current
section saw a remove-by-tag before any add, and whether it saw an add. -/
structure SecSt where
  removed : Bool
  addSeen : Bool
deriving DecidableEq, Repr

/-- One step of the per-section check (the claim's reading: within each
section, a remove-by-tag must come before any add of that section). -/
def secStep (s : SecSt) : Stmt → Option SecSt
  | .secHeader _ => some ⟨false, false⟩
  | .removeTag => some ⟨s.removed || !s.addSeen, s.addSeen⟩
  | .genComment _ => some s
  | _ => if s.removed then some ⟨s.removed, true⟩ else none

def runSec (s : SecSt) : List Stmt → Option SecSt
  | [] => some s
  | stmt :: rest =>
      match secStep s stmt with
      | none => none
      | some s' => runSec s' rest

/-- Does every tagged add of the document have a remove-by-tag earlier in
its own section, before any add of that section? -/
def sectionsOk (d : List Stmt) : Bool := (runSec ⟨false, false⟩ d).isSome

/-- State for the per-path coverage check: the current section path and the
set of paths under which a remove-by-tag has already been emitted. -/
structure ScanSt where
  current : String
  covered : List String
deriving DecidableEq, Repr

/-- One step of the per-path check: a tagged add is acceptable when a
remove-by-tag was emitted earlier in the document under the same section
path (not necessarily in the same section). -/
def scanStep (s : ScanSt) : Stmt → Option ScanSt
  | .secHeader p => some ⟨p, s.covered⟩
  | .removeTag => some ⟨s.current, s.current :: s.covered⟩
  | .genComment _ => some s
  | _ => if s.current ∈ s.covered then some s else none

def runScan (s : ScanSt) : List Stmt → Option ScanSt
  | [] => some s
  | stmt :: rest =>
      match scanStep s stmt with
      | none => none
      | some s' => runScan s' rest

/-- Is every tagged add preceded (anywhere earlier in the document) by a
remove-by-tag under the same section path? -/
def tagPathCovered (d : List Stmt) : Bool := (runScan ⟨"", []⟩ d).isSome

/-- The section-header paths of a document, in order. -/
def sectionPaths (d : List Stmt) : List String :=
  d.filterMap (fun s => match s with | .secHeader p => some p | _ => none)

/-- The `(vlan, mac)` payload of a macvlan add statement. -/
def macPair : Stmt → Option (Nat × Nat)
  | .addMacvlan v m => some (v, m)
  | _ => none

/-- The `(vlan, mac)` pairs of a document's macvlan add statements. -/
def macvlanPairs (d : List Stmt) : List (Nat × Nat) :=
  d.filterMap macPair

/-- The `(interface, pvid)` payload of a bridge-port add statement. -/
def bpPair : Stmt → Option (String × Nat)
  | .addBridgePort i v => some (i, v)
  | _ => none

/-- The `(interface, pvid)` pairs of a document's bridge-port add statements. -/
def bridgePortPairs (d : List Stmt) : List (String × Nat) :=
  d.filterMap bpPair

/-- The first byte of a 48-bit MAC value. -/
def macByte0 (m : Nat) : Nat := m / 2 ^ 40

/-! ## Declarative description of the validator's duplicate scan -/

/-- The four checked field names, in the source's array order. -/
def fieldName : Nat → String
  | 0 => "name"
  | 1 => "interface"
  | 2 => "loopback"
  | _ => "privkey"

/-- The four checked field values of a record, in the source's array order. -/
def fieldVal (pk : String → String) (r : Record) : Nat → String
  | 0 => r.name
  | 1 => r.interface
  | 2 => ipString r.loopback
  | _ => pk (r.privkey.getD "")

/-- Field `f` of the record at position `n` (0-based; csv line `n + 2`). -/
def fv (pk : String → String) (rs : List Record) (n f : Nat) : String :=
  fieldVal pk (rs.getD n dRec) f

/-- Positions `j < k` hold a duplicate in field `f`. -/
def dupAt (pk : String → String) (rs : List Record) (f j k : Nat) : Prop :=
  j < k ∧ k < rs.length ∧ f < 4 ∧ fv pk rs j f = fv pk rs k f

/-- `(j, k, f)` is the first duplicate, in the validator's scan order,
whose later record lies at position `m` or beyond: records in file order,
the four fields in array order within a record, the earliest previous
occurrence of the value as the reported earlier position. -/
def firstDupFrom (pk : String → String) (rs : List Record) (m j k f : Nat) : Prop :=
  dupAt pk rs f j k
    ∧ (∀ j2, j2 < j → fv pk rs j2 f ≠ fv pk rs k f)
    ∧ (∀ f2 j2, f2 < f → j2 < k → fv pk rs j2 f2 ≠ fv pk rs k f2)
    ∧ (∀ k2 f2 j2, m ≤ k2 → k2 < k → j2 < k2 → f2 < 4 →
        fv pk rs j2 f2 ≠ fv pk rs k2 f2)

/-- `(j, k, f)` is the first duplicate in the validator's scan order. -/
def firstDup (pk : String → String) (rs : List Record) (j k f : Nat) : Prop :=
  firstDupFrom pk rs 0 j k f

/-- The four duplicate maps, by field index. -/
def mapsProj (m : DupMaps) : Nat → List (String × Nat)
  | 0 => m.dnames
  | 1 => m.difaces
  | 2 => m.dloops
  | _ => m.dkeys

/-- Does the record pass the port-budget check for a mesh of `nodes` nodes
(independent of the reported line)? -/
def portOk (nodes : Nat) (r : Record) : Bool :=
  match r.port_min, r.port_max with
  | some pmin, some pmax => !(pmax < pmin) && !((pmax - pmin + 1) % 2 ^ 16 < nodes)
  | _, _ => true

/-- Does every `ifs_ips` entry carry a prefix separator? -/
def maskOk (r : Record) : Bool := (r.ifs_ips.getD []).all (fun ip => strContains ip '/')

/-! ## Concrete record sets, used in the instances below -/

def cA : Record :=
  ⟨"a", "wga", some "ea", .v4 1, some 1000, some 1050, none, some "ka",
   some [100], some ["e2"], some ["10.0.0.1/24"]⟩

def cB : Record :=
  ⟨"b", "wgb", some "eb", .v4 2, some 1000, some 1050, some 25, some "kb",
   some [100], some ["e3"], none⟩

def cC : Record :=
  ⟨"c", "wgc", some "ec", .v4 3, some 1000, some 1050, none, some "kc",
   some [100], some ["e4"], some ["10.0.2.1/24"]⟩

/-- `cA` with the port budget starting at the top of the `u16` range. -/
def cA65 : Record := { cA with port_min := some 65535 }

/-- `cA` with the full 16-bit port range `0..=65535`. -/
def cP0 : Record := { cA with port_min := some 0, port_max := some 65535 }

/-- `cB` with `cA`'s interface name (a duplicate). -/
def cBdupA : Record := { cB with interface := "wga" }

/-- `cA` under another name (all other fields unchanged). -/
def cZ : Record := { cA with name := "z" }

/-- `cB` without a private key. -/
def cBnoKey : Record := { cB with privkey := none }

/-- `cC` with `cA`'s interface name (a duplicate). -/
def cCdupA : Record := { cC with interface := "wga" }

/-- `cA` without a VLAN list. -/
def cAnoVlan : Record := { cA with vlan := none }

/-- `cA` with an IPv6 loopback. -/
def cAv6 : Record := { cA with loopback := .v6 1 }

/-- `cA` without `port_min`. -/
def cAnoPort : Record := { cA with port_min := none }

/-- `cA` without `port_min`, under another name. -/
def cZnoPort : Record := { cAnoPort with name := "z" }

/-- `cA` without a private key. -/
def cAnoKey : Record := { cA with privkey := none }

/-- `cA` without an endpoint. -/
def cAnoEp : Record := { cA with endpoint := none }

/-- `cA` with a two-entry `vlan_ifs` but a one-entry `vlan` list. -/
def cAmism : Record := { cA with vlan_ifs := some ["e2", "e9"], vlan := some [100] }

/-! ## Helper lemmas: indexed maps and schedules -/

theorem idxMap_shift (f : Nat → α → β) (b : Nat) (l : List α) :
    idxMap f (b + 1) l = idxMap (fun k a => f (k + 1) a) b l := by
  induction l generalizing b with
  | nil => rfl
  | cons a t ih => simp only [idxMap, ih]

theorem idxMap_congr {f g : Nat → α → β} (h : ∀ k a, f k a = g k a) (b : Nat) (l : List α) :
    idxMap f b l = idxMap g b l := by
  induction l generalizing b with
  | nil => rfl
  | cons a t ih => simp only [idxMap, h, ih]

theorem appendDoc_keys (docs : Docs) (n : String) (c : List Stmt) :
    (appendDoc docs n c).map Prod.fst = docs.map Prod.fst := by
  induction docs with
  | nil => rfl
  | cons d rest ih =>
      obtain ⟨m, dd⟩ := d
      by_cases h : m = n <;> simp [appendDoc, h, ih]

theorem contrib_nil_of_not_mem (n : String) (S : Sched) (h : ∀ p ∈ S, p.1 ≠ n) :
    contrib n S = [] := by
  induction S with
  | nil => rfl
  | cons p rest ih =>
      obtain ⟨m, c⟩ := p
      have hm : m ≠ n := h (m, c) (by simp)
      simp only [contrib, if_neg hm, List.nil_append]
      exact ih (fun q hq => h q (by simp [hq]))

theorem appendDoc_eq_map (docs : Docs) (n : String) (c : List Stmt)
    (h : (docs.map Prod.fst).Nodup) :
    appendDoc docs n c = docs.map (fun nd => if nd.1 = n then (nd.1, nd.2 ++ c) else nd) := by
  induction docs with
  | nil => rfl
  | cons d rest ih =>
      obtain ⟨m, dd⟩ := d
      simp only [List.map_cons, List.nodup_cons] at h
      by_cases hm : m = n
      · subst hm
        have hrest : ∀ nd ∈ rest, (if nd.1 = m then (nd.1, nd.2 ++ c) else nd) = nd := by
          intro nd hnd
          have hne : nd.1 ≠ m := by
            intro hc
            exact h.1 (hc ▸ List.mem_map_of_mem Prod.fst hnd)
          simp [hne]
        have hmap : List.map (fun nd => if nd.1 = m then (nd.1, nd.2 ++ c) else nd) rest
            = rest :=
          (List.map_congr_left hrest).trans (List.map_id rest)
        have he : appendDoc ((m, dd) :: rest) m c
            = if m = m then (m, dd ++ c) :: rest else (m, dd) :: appendDoc rest m c := rfl
        rw [he, if_pos rfl, List.map_cons, hmap, if_pos rfl]
      · simp only [appendDoc, if_neg hm, List.map_cons, if_neg hm]
        rw [ih h.2]

theorem applySched_eq_map (S : Sched) (docs : Docs) (h : (docs.map Prod.fst).Nodup) :
    applySched docs S = docs.map (fun nd => (nd.1, nd.2 ++ contrib nd.1 S)) := by
  induction S generalizing docs with
  | nil =>
      simp only [applySched, contrib, List.append_nil]
      exact (List.map_id docs).symm
  | cons p rest ih =>
      obtain ⟨m, c⟩ := p
      rw [applySched, ih (appendDoc docs m c) (by rw [appendDoc_keys]; exact h),
        appendDoc_eq_map docs m c h, List.map_map]
      apply List.map_congr_left
      intro nd _
      simp only [Function.comp]
      by_cases hnd : nd.1 = m
      · rw [if_pos hnd, contrib, if_pos hnd.symm, List.append_assoc]
      · rw [if_neg hnd, contrib, if_neg (fun hc => hnd hc.symm), List.nil_append]

theorem contrib_append (n : String) (S1 S2 : Sched) :
    contrib n (S1 ++ S2) = contrib n S1 ++ contrib n S2 := by
  induction S1 with
  | nil => rfl
  | cons p rest ih =>
      obtain ⟨m, c⟩ := p
      simp only [List.cons_append, contrib, List.append_eq, ih, List.append_assoc]

theorem contrib_recMap (records : List Record) (r : Record)
    (hnd : (records.map (·.name)).Nodup) (hr : r ∈ records) (g : Record → List Stmt) :
    contrib r.name (records.map (fun s => (s.name, g s))) = g r := by
  induction records with
  | nil => cases hr
  | cons s rest ih =>
      simp only [List.map_cons, List.nodup_cons] at hnd
      rcases List.mem_cons.mp hr with hr | hr
      · subst hr
        have hnil : contrib r.name (List.map (fun s => (s.name, g s)) rest) = [] := by
          apply contrib_nil_of_not_mem
          intro p hp
          obtain ⟨s', hs', rfl⟩ := List.mem_map.mp hp
          intro hc
          exact hnd.1 (hc ▸ List.mem_map_of_mem (fun x : Record => x.name) hs')
        simp [contrib, hnil]
      · have hne : s.name ≠ r.name := by
          intro hc
          exact (hc ▸ hnd.1) (List.mem_map_of_mem (fun x : Record => x.name) hr)
        simp only [List.map_cons, contrib, if_neg hne, List.nil_append]
        exact ih hnd.2 hr

theorem contrib_perRec (records : List Record) (r : Record)
    (hnd : (records.map (·.name)).Nodup) (hr : r ∈ records) (f : Record → List Stmt) :
    contrib r.name (perRec records f) = f r :=
  contrib_recMap records r hnd hr f

theorem contrib_flatMap (n : String) (h : α → Sched) (L : List α) :
    contrib n (L.flatMap h) = L.flatMap (fun c => contrib n (h c)) := by
  induction L with
  | nil => rfl
  | cons a t ih => simp only [List.flatMap_cons, contrib_append, ih]

theorem flatMap_singleton_eq_map (f : α → β) (l : List α) :
    (l.flatMap fun x => [f x]) = l.map f := by
  induction l with
  | nil => rfl
  | cons a t ih => simp [ih]

/-! ## Helper lemmas: stage characterizations -/

theorem wgIfPeers_ok (s : Record) (k : String) (hk : s.privkey = some k)
    (l : List Record) :
    ∀ port : Nat, port < 2 ^ 16 →
    wgIfPeers s port l = .ok
      (idxMap (fun j p => .addWgIf ((port + j) % 2 ^ 16) p.interface k) 0 (others l s),
       idxMap (fun j p => ((s.name, p.name), (port + j) % 2 ^ 16)) 0 (others l s)) := by
  induction l with
  | nil => intro port _; rfl
  | cons peer rest ih =>
      intro port hport
      by_cases h : s.name = peer.name
      · have hf : (s.name != peer.name) = false := by simp [h]
        simp only [wgIfPeers, if_pos h, others, List.filter_cons, hf]
        exact ih port hport
      · have hf : (s.name != peer.name) = true := by simp [h]
        simp only [wgIfPeers, if_neg h, hk]
        rw [ih ((port + 1) % 2 ^ 16) (Nat.mod_lt _ (by norm_num))]
        simp only [others, List.filter_cons, hf, if_pos rfl, idxMap]
        rw [idxMap_shift, idxMap_shift]
        have e1 := idxMap_congr
          (f := fun j (p : Record) =>
            Stmt.addWgIf (((port + 1) % 2 ^ 16 + j) % 2 ^ 16) p.interface k)
          (g := fun j (p : Record) => Stmt.addWgIf ((port + (j + 1)) % 2 ^ 16) p.interface k)
          (fun j p => by simp only [Nat.mod_add_mod, Nat.add_assoc, Nat.add_comm 1 j]) 0
          (List.filter (fun b => s.name != b.name) rest)
        have e2 := idxMap_congr
          (f := fun j (p : Record) => ((s.name, p.name), ((port + 1) % 2 ^ 16 + j) % 2 ^ 16))
          (g := fun j (p : Record) => ((s.name, p.name), (port + (j + 1)) % 2 ^ 16))
          (fun j p => by simp only [Nat.mod_add_mod, Nat.add_assoc, Nat.add_comm 1 j]) 0
          (List.filter (fun b => s.name != b.name) rest)
        rw [e1, e2, Nat.add_zero, Nat.mod_eq_of_lt hport]

theorem wgIfStage_ok (records : List Record) (l : List Record)
    (h : ∀ s ∈ l, (∃ p, s.port_min = some p ∧ p < 2 ^ 16) ∧ s.privkey.isSome) :
    wgIfStage records l =
      .ok (l.map (fun s => (s.name, wgIfChunk records s)), l.flatMap (portsFor records)) := by
  induction l with
  | nil => rfl
  | cons s rest ih =>
      obtain ⟨⟨p, hp, hp16⟩, hkey⟩ := h s (by simp)
      obtain ⟨k, hk⟩ := Option.isSome_iff_exists.mp hkey
      have hrest := ih (fun r hr => h r (by simp [hr]))
      have hc : wgIfChunk records s =
          idxMap (fun j q => Stmt.addWgIf ((p + j) % 2 ^ 16) q.interface k) 0
            (others records s) := by
        simp only [wgIfChunk, hp, hk, Option.getD_some]
      have hq : portsFor records s =
          idxMap (fun j q => ((s.name, q.name), (p + j) % 2 ^ 16)) 0
            (others records s) := by
        simp only [portsFor, hp, Option.getD_some]
      simp only [wgIfStage, hp, wgIfPeers_ok s k hk records p hp16, hrest,
        List.map_cons, List.flatMap_cons, hc, hq]

theorem peerStmts_ok (pk : String → String) (ports : List ((String × String) × Nat))
    (s : Record) (l : List Record)
    (h : ∀ b ∈ l, b.endpoint.isSome ∧ b.privkey.isSome) :
    peerStmts pk ports s l = .ok ((others l s).map (fun peer =>
      .addWgPeer (peer.endpoint.getD "")
        ((lookupPair ports (peer.name, s.name)).getD 0)
        peer.interface peer.name (peer.keepalive.getD 0)
        (pk (peer.privkey.getD "")))) := by
  induction l with
  | nil => rfl
  | cons peer rest ih =>
      obtain ⟨hep, hkey⟩ := h peer (by simp)
      obtain ⟨ep, hep'⟩ := Option.isSome_iff_exists.mp hep
      obtain ⟨k, hk⟩ := Option.isSome_iff_exists.mp hkey
      by_cases hn : s.name = peer.name
      · have hf : (s.name != peer.name) = false := by simp [hn]
        simp only [peerStmts, if_pos hn, others, List.filter_cons, hf]
        exact ih (fun b hb => h b (by simp [hb]))
      · have hf : (s.name != peer.name) = true := by simp [hn]
        simp only [peerStmts, if_neg hn, hep', hk]
        rw [ih (fun b hb => h b (by simp [hb]))]
        simp only [others, List.filter_cons, hf, if_true, if_pos rfl, List.map_cons,
          hep', hk, Option.getD_some]

theorem peersStage_ok (pk : String → String) (ports : List ((String × String) × Nat))
    (records : List Record) (l : List Record)
    (h : ∀ b ∈ records, b.endpoint.isSome ∧ b.privkey.isSome) :
    peersStage pk ports records l = .ok (l.map (fun s => (s.name,
      (others records s).map (fun peer =>
        .addWgPeer (peer.endpoint.getD "")
          ((lookupPair ports (peer.name, s.name)).getD 0)
          peer.interface peer.name (peer.keepalive.getD 0)
          (pk (peer.privkey.getD "")))))) := by
  induction l with
  | nil => rfl
  | cons s rest ih =>
      rw [peersStage, peerStmts_ok pk ports s records h, ih, List.map_cons]

theorem mapMSched_ok (f : Record → Except GenError (List Stmt))
    (g : Record → List Stmt) (l : List Record) (h : ∀ r ∈ l, f r = .ok (g r)) :
    mapMSched f l = .ok (l.map (fun r => (r.name, g r))) := by
  induction l with
  | nil => rfl
  | cons r rest ih =>
      rw [mapMSched, h r (by simp), ih (fun q hq => h q (by simp [hq])), List.map_cons]

theorem bridgePortStmts_ok (r : Record) (hvi : r.vlan_ifs.isSome) (hv : r.vlan.isSome) :
    bridgePortStmts r = .ok (bridgePortChunk r) := by
  obtain ⟨ifs, hifs⟩ := Option.isSome_iff_exists.mp hvi
  obtain ⟨vs, hvs⟩ := Option.isSome_iff_exists.mp hv
  unfold bridgePortStmts bridgePortChunk
  rw [hifs, hvs]
  rfl

theorem vxlanStmts_ok (r : Record) (hv : r.vlan.isSome) :
    vxlanStmts r = .ok (vxlanChunk r) := by
  obtain ⟨vs, hvs⟩ := Option.isSome_iff_exists.mp hv
  unfold vxlanStmts vxlanChunk
  rw [hvs]
  rfl

theorem bgpEvpnStmts_ok (asNum : Nat) (r : Record) (hv : r.vlan.isSome) :
    bgpEvpnStmts asNum r = .ok (bgpEvpnChunk asNum r) := by
  obtain ⟨vs, hvs⟩ := Option.isSome_iff_exists.mp hv
  unfold bgpEvpnStmts bgpEvpnChunk
  rw [hvs]
  rfl

theorem vlanIfStmts_ok (r : Record) (hv : r.vlan.isSome) :
    vlanIfStmts r = .ok (vlanIfChunk r) := by
  obtain ⟨vs, hvs⟩ := Option.isSome_iff_exists.mp hv
  unfold vlanIfStmts vlanIfChunk
  rw [hvs]
  rfl

theorem vlanIpStmts_ok (r : Record) (hv : r.vlan.isSome) :
    vlanIpStmts r = .ok (vlanIpChunk r) := by
  obtain ⟨vs, hvs⟩ := Option.isSome_iff_exists.mp hv
  unfold vlanIpStmts vlanIpChunk
  cases hips : r.ifs_ips with
  | none => simp [hips]
  | some ips => rw [hvs]; simp [hips]

theorem evpnSched_ok (asNum : Nat) (records : List Record)
    (hvi : ∀ r ∈ records, r.vlan_ifs.isSome) (hv : ∀ r ∈ records, r.vlan.isSome) :
    evpnSched asNum records = .ok
      (perRec records (fun _ => [.secHeader bridgePath, .removeTag, .addBridge])
        ++ perRec records (fun _ => [.secHeader bridgePortPath, .removeTag])
        ++ records.map (fun r => (r.name, bridgePortChunk r))
        ++ perRec records (fun _ => [.secHeader vxlanPath, .removeTag])
        ++ records.map (fun r => (r.name, vxlanChunk r))
        ++ perRec records (fun r =>
             [.secHeader bgpInstPath, .removeTag, .addBgpInstance asNum r.loopback])
        ++ perRec records (fun _ => [.secHeader bgpConnPath, .removeTag])
        ++ perRec records (fun r => bgpConnStmts asNum records r)
        ++ perRec records (fun _ => [.secHeader bgpEvpnPath, .removeTag])
        ++ records.map (fun r => (r.name, bgpEvpnChunk asNum r))) := by
  unfold evpnSched
  rw [mapMSched_ok bridgePortStmts bridgePortChunk records
      (fun r hr => bridgePortStmts_ok r (hvi r hr) (hv r hr)),
    mapMSched_ok vxlanStmts vxlanChunk records (fun r hr => vxlanStmts_ok r (hv r hr)),
    mapMSched_ok (bgpEvpnStmts asNum) (bgpEvpnChunk asNum) records
      (fun r hr => bgpEvpnStmts_ok asNum r (hv r hr))]

theorem anycastSched_some (entropy : Nat → Nat) (records : List Record)
    (vs : List Nat) (ads : List IpAddr) (hlen : vs.length = ads.length) :
    anycastSched entropy records (some vs) (some ads) = .ok
      (perRec records (fun _ => [.secHeader macvlanPath, .removeTag])
        ++ macvlanSched entropy records vs
        ++ perRec records (fun _ => [.secHeader ipPath])
        ++ perRec records (fun _ =>
             (vs.zip ads).map (fun p => .addAnycastIp p.1 p.2))) := by
  have he : anycastSched entropy records (some vs) (some ads)
      = if vs.length ≠ ads.length then .error .anycastMismatch
        else .ok (perRec records (fun _ => [.secHeader macvlanPath, .removeTag])
          ++ macvlanSched entropy records vs
          ++ perRec records (fun _ => [.secHeader ipPath])
          ++ perRec records (fun _ =>
               (vs.zip ads).map (fun p => .addAnycastIp p.1 p.2))) := rfl
  rw [he, if_neg (by simp [hlen])]

/-- The characterization of a successful generation run: under the
preconditions that make each stage succeed, the generator returns the
closed-form port map and the closed-form per-node documents. -/
theorem genConfig_char (pk : String → String) (entropy : Nat → Nat) (start : IpAddr)
    (ospf evpn : Bool) (asNum : Nat) (cliVlans : Option (List Nat))
    (anycastAddrs : Option (List IpAddr)) (records : List Record)
    (hnd : (records.map (·.name)).Nodup)
    (hpm : ∀ r ∈ records, ∃ p, r.port_min = some p ∧ p < 2 ^ 16)
    (hpk : ∀ r ∈ records, r.privkey.isSome)
    (hep : ∀ r ∈ records, r.endpoint.isSome)
    (hv : ∀ r ∈ records, r.vlan.isSome)
    (hvi : evpn = true → ∀ r ∈ records, r.vlan_ifs.isSome)
    (hany : ∀ vs ads, cliVlans = some vs → anycastAddrs = some ads →
      vs.length = ads.length) :
    genConfig pk entropy start ospf evpn asNum cliVlans anycastAddrs records =
      .ok ⟨portsClosed records,
        records.map (fun r => (r.name,
          docFor pk entropy start ospf evpn asNum cliVlans anycastAddrs records r))⟩ := by
  have h2 := wgIfStage_ok records records (fun s hs => ⟨hpm s hs, hpk s hs⟩)
  have h4 := peersStage_ok pk (records.flatMap (portsFor records)) records records
    (fun b hb => ⟨hep b hb, hpk b hb⟩)
  have h10 := mapMSched_ok vlanIfStmts vlanIfChunk records
    (fun r hr => vlanIfStmts_ok r (hv r hr))
  have h12 := mapMSched_ok vlanIpStmts vlanIpChunk records
    (fun r hr => vlanIpStmts_ok r (hv r hr))
  have hospf : ∀ r ∈ records,
      contrib r.name (if ospf then ospfSched records else [])
        = (if ospf then ospfChunk records r else []) := by
    intro r hr
    cases ospf
    · rfl
    · simp only [if_true, ospfSched, ospfChunk, contrib_append,
        contrib_perRec records r hnd hr]
      simp
  have h8 : ∃ S8, (if evpn then evpnSched asNum records else .ok []) = .ok S8
      ∧ ∀ r ∈ records, contrib r.name S8 = (if evpn then evpnChunk asNum records r else []) := by
    cases evpn
    · exact ⟨[], rfl, fun r hr => rfl⟩
    · refine ⟨_, by rw [if_pos rfl, evpnSched_ok asNum records (hvi rfl) hv], ?_⟩
      intro r hr
      simp only [if_true, evpnChunk, perRec, contrib_append,
        contrib_recMap records r hnd hr, contrib, List.append_nil]
      simp
  have h13 : ∃ S13, anycastSched entropy records cliVlans anycastAddrs = .ok S13
      ∧ ∀ r ∈ records, contrib r.name S13 = anycastChunk entropy cliVlans anycastAddrs := by
    rcases cliVlans with _ | vs <;> rcases anycastAddrs with _ | ads
    · exact ⟨[], rfl, fun r hr => rfl⟩
    · exact ⟨[], rfl, fun r hr => rfl⟩
    · exact ⟨[], rfl, fun r hr => rfl⟩
    · have hlen := hany vs ads rfl rfl
      refine ⟨_, anycastSched_some entropy records vs ads hlen, ?_⟩
      intro r hr
      simp only [anycastChunk, if_pos hlen, macvlanSched, perRec, contrib_append,
        contrib_flatMap, contrib_recMap records r hnd hr, macvlanChunk, contrib,
        List.append_nil]
      rw [flatMap_singleton_eq_map]
  obtain ⟨S8, hS8, hS8c⟩ := h8
  obtain ⟨S13, hS13, hS13c⟩ := h13
  have hkeys : (((records.map (fun r => (r.name, [Stmt.genComment r.name]))).map
      Prod.fst)).Nodup := by
    simpa [List.map_map, Function.comp] using hnd
  simp only [genConfig, h2, h4, hS8, h10, h12, hS13]
  rw [applySched_eq_map _ _ hkeys, List.map_map, portsClosed]
  refine congrArg Except.ok ?_
  refine congrArg₂ GenOut.mk rfl ?_
  apply List.map_congr_left
  intro r hr
  simp only [Function.comp]
  refine congrArg₂ Prod.mk rfl ?_
  simp only [contrib_append, perRec, contrib_recMap records r hnd hr,
    hospf r hr, hS8c r hr, hS13c r hr, ptpSched, contrib_flatMap, contrib,
    List.append_nil]
  simp only [docFor, peerChunk, portsClosed, ptpChunk, contrib, List.append_nil]
  simp [List.append_assoc]

/-! ## Helper lemmas: the point-to-point pairing -/

theorem IpAddr.val_addN (a : IpAddr) (n : Nat) : (a.addN n).val = a.val + n := by
  cases a <;> rfl

theorem IpAddr.space_addN (a : IpAddr) (n : Nat) : (a.addN n).space = a.space := by
  cases a <;> rfl

theorem IpAddr.addN_addN (a : IpAddr) (m n : Nat) :
    (a.addN m).addN n = a.addN (m + n) := by
  cases a <;> simp [IpAddr.addN, Nat.add_assoc]

theorem IpAddr.addN_zero (a : IpAddr) : a.addN 0 = a := by
  cases a <;> rfl

theorem IpAddr.succ_eq_addN (a : IpAddr) (h : a.val + 1 < a.space) :
    a.succ = a.addN 1 := by
  cases a with
  | v4 v =>
      simp only [IpAddr.val, IpAddr.space] at h
      show IpAddr.v4 ((v + 1) % 2 ^ 32) = IpAddr.v4 (v + 1)
      rw [Nat.mod_eq_of_lt h]
  | v6 v =>
      simp only [IpAddr.val, IpAddr.space] at h
      show IpAddr.v6 ((v + 1) % 2 ^ 128) = IpAddr.v6 (v + 1)
      rw [Nat.mod_eq_of_lt h]

theorem succChain_eq (n : Nat) (a : IpAddr) (h : a.val + n < a.space) :
    succChain a n = (List.range n).map (fun k => a.addN (k + 1)) := by
  induction n generalizing a with
  | zero => rfl
  | succ m ih =>
      have h1 : a.val + 1 < a.space := by omega
      have h2 : (a.addN 1).val + m < (a.addN 1).space := by
        rw [IpAddr.val_addN, IpAddr.space_addN]; omega
      rw [succChain, IpAddr.succ_eq_addN a h1, ih (a.addN 1) h2,
        List.range_succ_eq_map, List.map_cons, List.map_map]
      refine congrArg₂ List.cons rfl ?_
      apply List.map_congr_left
      intro k _
      simp only [Function.comp, IpAddr.addN_addN]
      rw [Nat.add_comm 1 (k + 1)]

theorem ptpAddresses_eq (start : IpAddr) (c : Nat) (hc : 1 ≤ c)
    (h : start.val + c ≤ start.space) :
    ptpAddresses start c = (List.range c).map (fun k => start.addN k) := by
  obtain ⟨m, rfl⟩ : ∃ m, c = m + 1 := ⟨c - 1, by omega⟩
  rw [ptpAddresses, Nat.add_sub_cancel, succChain_eq m start (by omega),
    List.range_succ_eq_map, List.map_cons, List.map_map, IpAddr.addN_zero]
  refine congrArg₂ List.cons rfl ?_
  apply List.map_congr_left
  intro k _
  simp only [Function.comp]

theorem flatPairs_length (P : List (α × α)) :
    (P.flatMap (fun ab => [ab.1, ab.2])).length = 2 * P.length := by
  induction P with
  | nil => rfl
  | cons ab rest ih =>
      simp only [List.flatMap_cons, List.length_append, List.length_cons,
        List.length_nil, ih]
      omega

theorem ptpInterfaces_eq_flat (records : List Record) :
    ptpInterfaces records = (triangularPairs records).flatMap (fun ab => [ab.1, ab.2]) := by
  induction records with
  | nil => rfl
  | cons a rest ih =>
      rw [ptpInterfaces, triangularPairs, ih, List.flatMap_append, List.flatMap_map]

theorem triangularPairs_two_mul_length (l : List α) :
    2 * (triangularPairs l).length = l.length * (l.length - 1) := by
  induction l with
  | nil => rfl
  | cons a rest ih =>
      have hexp : (rest.length + 1) * rest.length
          = rest.length * (rest.length - 1) + 2 * rest.length := by
        cases h : rest.length with
        | zero => rfl
        | succ m => simp only [Nat.succ_sub_one]; ring
      simp only [triangularPairs, List.length_append, List.length_map,
        List.length_cons, Nat.add_sub_cancel]
      omega

theorem stepBy2_chunk (t1 : List α) (t2 : List β) (a1 b1 : α) (a2 b2 : β)
    (h : t1.length = t2.length) :
    stepBy2 ((windows2 (a1 :: b1 :: t1)).zip (windows2 (a2 :: b2 :: t2)))
      = ((a1, b1), (a2, b2)) :: stepBy2 ((windows2 t1).zip (windows2 t2)) := by
  cases t1 with
  | nil =>
      cases t2 with
      | nil => rfl
      | cons c2 t2' => simp at h
  | cons c1 t1' =>
      cases t2 with
      | nil => simp at h
      | cons c2 t2' => rfl

theorem stepBy2_zip_closed (P : List (α × α)) :
    ∀ g : Nat → IpAddr,
    stepBy2 ((windows2 ((List.range (2 * P.length)).map g)).zip
        (windows2 (P.flatMap (fun ab => [ab.1, ab.2]))))
      = idxMap (fun k ab => ((g (2 * k), g (2 * k + 1)), ab)) 0 P := by
  induction P with
  | nil => intro g; rfl
  | cons ab P' ih =>
      intro g
      have hr : 2 * (ab :: P').length = 2 * P'.length + 1 + 1 := by
        simp [List.length_cons]; omega
      have hlist : (List.range (2 * P'.length + 1 + 1)).map g
          = g 0 :: g 1 :: (List.range (2 * P'.length)).map (fun k => g (k + 1 + 1)) := by
        rw [List.range_succ_eq_map, List.range_succ_eq_map]
        simp [List.map_map, Function.comp, Nat.succ_eq_add_one]
      have hlen : ((List.range (2 * P'.length)).map (fun k => g (k + 1 + 1))).length
          = (P'.flatMap (fun ab => [ab.1, ab.2])).length := by
        rw [List.length_map, List.length_range, flatPairs_length]
      rw [hr, hlist, List.flatMap_cons]
      rw [show [ab.1, ab.2] ++ P'.flatMap (fun ab => [ab.1, ab.2])
            = ab.1 :: ab.2 :: P'.flatMap (fun ab => [ab.1, ab.2]) from rfl]
      rw [stepBy2_chunk _ _ _ _ _ _ hlen, ih (fun k => g (k + 1 + 1))]
      rw [idxMap, idxMap_shift]
      refine congrArg₂ List.cons ?_ ?_
      · refine congrArg₂ Prod.mk (congrArg₂ Prod.mk ?_ ?_) rfl <;> congr 1
      · apply idxMap_congr
        intro k c
        refine congrArg₂ Prod.mk (congrArg₂ Prod.mk ?_ ?_) rfl <;> congr 1

theorem ptpChunks_closed (records : List Record) (start : IpAddr)
    (h : start.val + records.length * (records.length - 1) ≤ start.space) :
    ptpChunks records start
      = idxMap (fun k ab => ((start.addN (2 * k), start.addN (2 * k + 1)), ab)) 0
          (triangularPairs records) := by
  have hflat := ptpInterfaces_eq_flat records
  have hlen2 : (ptpInterfaces records).length = 2 * (triangularPairs records).length := by
    rw [hflat, flatPairs_length]
  rcases Nat.eq_zero_or_pos (triangularPairs records).length with hz | hpos
  · have h0 : triangularPairs records = [] := List.length_eq_zero.mp hz
    have h1 : ptpInterfaces records = [] := by rw [hflat, h0]; rfl
    rw [ptpChunks, h1, h0]
    rfl
  · have hc1 : 1 ≤ (ptpInterfaces records).length := by omega
    have hcs : start.val + (ptpInterfaces records).length ≤ start.space := by
      rw [hlen2]
      have := triangularPairs_two_mul_length records
      omega
    rw [ptpChunks, ptpAddresses_eq start _ hc1 hcs, hlen2, hflat,
      stepBy2_zip_closed (triangularPairs records) (fun k => start.addN k)]

/-! ## Helper lemmas: indexed maps, lengths, keys -/

theorem idxMap_length (f : Nat → α → β) (b : Nat) (l : List α) :
    (idxMap f b l).length = l.length := by
  induction l generalizing b with
  | nil => rfl
  | cons a t ih => simp only [idxMap, List.length_cons, ih]

theorem map_idxMap (g : β → γ) (f : Nat → α → β) (b : Nat) (l : List α) :
    (idxMap f b l).map g = idxMap (fun k a => g (f k a)) b l := by
  induction l generalizing b with
  | nil => rfl
  | cons a t ih => simp only [idxMap, List.map_cons, ih]

theorem idxMap_const (h : α → β) (b : Nat) (l : List α) :
    idxMap (fun _ a => h a) b l = l.map h := by
  induction l generalizing b with
  | nil => rfl
  | cons a t ih => simp only [idxMap, List.map_cons, ih]

theorem idxMap_congr_lt {f g : Nat → α → β} (l : List α) :
    ∀ b : Nat, (∀ k, k < b + l.length → ∀ a, f k a = g k a) →
    idxMap f b l = idxMap g b l := by
  induction l with
  | nil => intro b _; rfl
  | cons a t ih =>
      intro b h
      simp only [idxMap]
      rw [h b (by simp only [List.length_cons]; omega) a,
        ih (b + 1) (fun k hk a => h k (by simp only [List.length_cons]; omega) a)]

theorem flatMap_congr_mem (l : List α) {f g : α → List β} (h : ∀ a ∈ l, f a = g a) :
    l.flatMap f = l.flatMap g := by
  induction l with
  | nil => rfl
  | cons a t ih =>
      simp only [List.flatMap_cons, h a (by simp), ih (fun x hx => h x (by simp [hx]))]

theorem length_flatMap_const (l : List α) (f : α → List β) (c : Nat)
    (h : ∀ a ∈ l, (f a).length = c) : (l.flatMap f).length = l.length * c := by
  induction l with
  | nil => simp
  | cons a t ih =>
      simp only [List.flatMap_cons, List.length_append, List.length_cons,
        h a (by simp), ih (fun x hx => h x (by simp [hx])), Nat.succ_mul]
      omega

theorem others_names_sublist (records : List Record) (r : Record) :
    ((others records r).map (·.name)).Sublist (records.map (·.name)) :=
  (List.filter_sublist records).map (·.name)

theorem others_length (records : List Record) (r : Record)
    (hnd : (records.map (·.name)).Nodup) (hr : r ∈ records) :
    (others records r).length = records.length - 1 := by
  induction records with
  | nil => cases hr
  | cons s rest ih =>
      simp only [List.map_cons, List.nodup_cons] at hnd
      rcases List.mem_cons.mp hr with hr | hr
      · subst hr
        have hkeep : rest.filter (fun b => r.name != b.name) = rest := by
          rw [List.filter_eq_self]
          intro b hb
          simp only [bne_iff_ne, ne_eq]
          intro hc
          exact hnd.1 (hc ▸ List.mem_map_of_mem (fun x : Record => x.name) hb)
        have hothers : others (r :: rest) r = rest := by
          simp only [others, List.filter_cons]
          rw [if_neg (by simp), hkeep]
        rw [hothers, List.length_cons, Nat.add_sub_cancel]
      · have hne : (r.name != s.name) = true := by
          simp only [bne_iff_ne, ne_eq]
          intro hc
          exact hnd.1 (hc ▸ List.mem_map_of_mem (fun x : Record => x.name) hr)
        have hlen : 1 ≤ rest.length := by
          rcases rest with _ | _
          · cases hr
          · simp
        have hih := ih hnd.2 hr
        have hothers : others (s :: rest) r = s :: others rest r := by
          simp only [others, List.filter_cons]
          rw [if_pos hne]
        rw [hothers, List.length_cons, List.length_cons]
        omega

theorem portKeys_nodup (records : List Record)
    (hnd : (records.map (·.name)).Nodup) :
    ((records.flatMap (fun s => (others records s).map (fun p => (s.name, p.name))))).Nodup := by
  rw [List.nodup_flatMap]
  constructor
  · intro s _
    have hsub := others_names_sublist records s
    have hon : ((others records s).map (·.name)).Nodup := hnd.sublist hsub
    have : (others records s).map (fun p => (s.name, p.name))
        = ((others records s).map (·.name)).map (fun nm => (s.name, nm)) := by
      rw [List.map_map]
      rfl
    rw [this]
    refine hon.map ?_
    intro a b hab
    simpa using congrArg Prod.snd hab
  · have hpw : records.Pairwise (fun a b => a.name ≠ b.name) := List.pairwise_map.mp hnd
    refine hpw.imp ?_
    intro a b hne
    simp only [Function.onFun, List.disjoint_left]
    intro x hx1 hx2
    obtain ⟨p, _, rfl⟩ := List.mem_map.mp hx1
    obtain ⟨q, _, hq⟩ := List.mem_map.mp hx2
    exact hne (by simpa using congrArg Prod.fst hq.symm)

/-! ## Claim C1 -/

/-- C1 (amended): for every record set with pairwise-distinct names in
which every record has both `port_min` and a private key, and whose
`port_min` values are `u16`s small enough that the per-server `u16` port
counter does not wrap (`port_min + N − 2 ≤ 65535`), the generator's server
loop succeeds and builds the port-assignment map with exactly `N(N−1)`
entries and pairwise-distinct `(server, peer)` keys, where each server's
ports, taken over its `N−1` peers in record order excluding itself, are
exactly `port_min, port_min+1, …, port_min+N−2` — contiguous, no gaps or
repeats, each server's counter independent of the others. -/
theorem c1_port_map (records : List Record)
    (hnd : (records.map (·.name)).Nodup)
    (hpm : ∀ r ∈ records, ∃ p, r.port_min = some p ∧ p < 2 ^ 16
      ∧ p + records.length ≤ 2 ^ 16 + 1)
    (hpk : ∀ r ∈ records, r.privkey.isSome) :
    ∃ A, wgPorts records = some A
      ∧ A = records.flatMap (fun s =>
          idxMap (fun j p => ((s.name, p.name), s.port_min.getD 0 + j)) 0
            (others records s))
      ∧ A.length = records.length * (records.length - 1)
      ∧ (A.map Prod.fst).Nodup
      ∧ ∀ r ∈ records, (others records r).length = records.length - 1 := by
  have hchar := wgIfStage_ok records records
    (fun s hs => ⟨(hpm s hs).imp (fun p hp => ⟨hp.1, hp.2.1⟩), hpk s hs⟩)
  have hlen : ∀ r ∈ records, (others records r).length = records.length - 1 :=
    fun r hr => others_length records r hnd hr
  have hnomod : records.flatMap (portsFor records)
      = records.flatMap (fun s =>
          idxMap (fun j p => ((s.name, p.name), s.port_min.getD 0 + j)) 0
            (others records s)) := by
    apply flatMap_congr_mem
    intro s hs
    obtain ⟨p, hp, hp16, hpN⟩ := hpm s hs
    unfold portsFor
    apply idxMap_congr_lt
    intro k hk a
    simp only [Nat.zero_add] at hk
    rw [hlen s hs] at hk
    have : s.port_min.getD 0 = p := by rw [hp]; rfl
    rw [this]
    rw [Nat.mod_eq_of_lt (by omega)]
  refine ⟨records.flatMap (portsFor records), ?_, hnomod, ?_, ?_, hlen⟩
  · unfold wgPorts
    rw [hchar]
  · rw [hnomod, length_flatMap_const _ _ (records.length - 1)]
    intro s hs
    rw [idxMap_length, hlen s hs]
  · rw [hnomod]
    have hkeys : (records.flatMap (fun s =>
        idxMap (fun j p => ((s.name, p.name), s.port_min.getD 0 + j)) 0
          (others records s))).map Prod.fst
        = records.flatMap (fun s => (others records s).map (fun p => (s.name, p.name))) := by
      rw [List.map_flatMap]
      apply flatMap_congr_mem
      intro s _
      rw [map_idxMap]
      exact idxMap_const (fun p => (s.name, p.name)) 0 (others records s)
    rw [hkeys]
    exact portKeys_nodup records hnd

/-- C1 counterexample: the claim as stated fails on the code.  (i) With
three nodes of `port_min = 65535`, server `a`'s `u16` port counter wraps:
its peers get ports `65535` and `0`, not `65535` and `65536` as the claim's
`port_min .. port_min+N−2` demands.  (ii) With every `port_min` set but a
private key missing, generation aborts and no port map is built at all. -/
theorem c1_counterexample :
    wgPorts [cA65, cB, cC]
      = some [(("a", "b"), 65535), (("a", "c"), 0),
              (("b", "a"), 1000), (("b", "c"), 1001),
              (("c", "a"), 1000), (("c", "b"), 1001)]
    ∧ [(("a", "b"), 65535), (("a", "c"), 0),
       (("b", "a"), 1000), (("b", "c"), 1001),
       (("c", "a"), 1000), (("c", "b"), 1001)]
      ≠ [(("a", "b"), 65535), (("a", "c"), 65536),
         (("b", "a"), 1000), (("b", "c"), 1001),
         (("c", "a"), 1000), (("c", "b"), 1001)]
    ∧ wgPorts [cAnoKey, cB] = none := by
  refine ⟨by decide, by decide, by decide⟩

/-- C1 witness: the amended claim at the 3-node example of the claim text
(`a`, `b`, `c`, each `port_min = 1000`): hypotheses hold and the theorem
applies; its closed form evaluates to
`a→{b:1000, c:1001}, b→{a:1000, c:1001}, c→{a:1000, b:1001}`. -/
theorem c1_witness :
    (([cA, cB, cC].map (·.name)).Nodup
      ∧ (∀ r ∈ [cA, cB, cC], ∃ p, r.port_min = some p ∧ p < 2 ^ 16
          ∧ p + ([cA, cB, cC] : List Record).length ≤ 2 ^ 16 + 1)
      ∧ (∀ r ∈ [cA, cB, cC], r.privkey.isSome))
    ∧ (∃ A, wgPorts [cA, cB, cC] = some A
        ∧ A = ([cA, cB, cC] : List Record).flatMap (fun s =>
            idxMap (fun j p => ((s.name, p.name), s.port_min.getD 0 + j)) 0
              (others [cA, cB, cC] s))
        ∧ A.length = ([cA, cB, cC] : List Record).length
            * (([cA, cB, cC] : List Record).length - 1)
        ∧ (A.map Prod.fst).Nodup
        ∧ ∀ r ∈ [cA, cB, cC],
            (others [cA, cB, cC] r).length = ([cA, cB, cC] : List Record).length - 1)
    ∧ wgPorts [cA, cB, cC]
      = some [(("a", "b"), 1000), (("a", "c"), 1001),
              (("b", "a"), 1000), (("b", "c"), 1001),
              (("c", "a"), 1000), (("c", "b"), 1001)] :=
  ⟨⟨by decide, by decide, by decide⟩,
   c1_port_map [cA, cB, cC] (by decide) (by decide) (by decide),
   by decide⟩

/-! ## Claim C2 -/

/-- C2 (confirmed): for every record set and start address, assuming the
address space does not overflow, the generator enumerates exactly
`N(N−1)/2` unordered node pairs in triangular order (position `i` with
every later position), allocating two consecutive addresses per pair from a
single counter seeded at the start address — the `k`-th pair getting
`start+2k` (bound to the record-order-earlier node, the pair's first
component) and `start+2k+1` (the later node) — and the allocated addresses
are strictly increasing. -/
theorem c2_ptp_pairs (records : List Record) (start : IpAddr)
    (hno : start.val + records.length * (records.length - 1) ≤ start.space) :
    ptpChunks records start
      = idxMap (fun k ab => ((start.addN (2 * k), start.addN (2 * k + 1)), ab)) 0
          (triangularPairs records)
    ∧ (ptpChunks records start).length = records.length * (records.length - 1) / 2
    ∧ (∀ n m : Nat, n < m → (start.addN n).val < (start.addN m).val) := by
  refine ⟨ptpChunks_closed records start hno, ?_, ?_⟩
  · rw [ptpChunks_closed records start hno, idxMap_length]
    have := triangularPairs_two_mul_length records
    omega
  · intro n m h
    rw [IpAddr.val_addN, IpAddr.val_addN]
    omega

/-- C2 witness: the theorem at the 3-node example with start `10.0.0.100`
(IPv4 value 100): the no-overflow hypothesis holds, the theorem applies,
and the enumeration evaluates to the pairs `(a,b), (a,c), (b,c)` with
address pairs `(100,101), (102,103), (104,105)`. -/
theorem c2_witness :
    ((IpAddr.v4 100).val + ([cA, cB, cC] : List Record).length
        * (([cA, cB, cC] : List Record).length - 1) ≤ (IpAddr.v4 100).space)
    ∧ (ptpChunks [cA, cB, cC] (.v4 100)
        = idxMap (fun k ab => (((IpAddr.v4 100).addN (2 * k),
            (IpAddr.v4 100).addN (2 * k + 1)), ab)) 0 (triangularPairs [cA, cB, cC])
      ∧ (ptpChunks [cA, cB, cC] (.v4 100)).length
          = ([cA, cB, cC] : List Record).length
            * (([cA, cB, cC] : List Record).length - 1) / 2
      ∧ (∀ n m : Nat, n < m →
          ((IpAddr.v4 100).addN n).val < ((IpAddr.v4 100).addN m).val))
    ∧ (ptpChunks [cA, cB, cC] (.v4 100)).map
        (fun c => ((c.1.1, c.1.2), (c.2.1.name, c.2.2.name)))
      = [((.v4 100, .v4 101), ("a", "b")),
         ((.v4 102, .v4 103), ("a", "c")),
         ((.v4 104, .v4 105), ("b", "c"))] :=
  ⟨by decide, c2_ptp_pairs [cA, cB, cC] (.v4 100) (by decide), by decide⟩

/-! ## Helper lemmas: the validator's duplicate scan -/

theorem range_find?_eq_none (P : Nat → Bool) (m : Nat) :
    (List.range m).find? P = none ↔ ∀ i, i < m → P i = false := by
  rw [List.find?_eq_none]
  constructor
  · intro h i hi
    have := h i (List.mem_range.mpr hi)
    simpa using this
  · intro h x hx
    simp [h x (List.mem_range.mp hx)]

theorem range_find?_eq_some (P : Nat → Bool) (m : Nat) : ∀ j,
    (List.range m).find? P = some j
      ↔ j < m ∧ P j = true ∧ ∀ i, i < j → P i = false := by
  induction m with
  | zero => simp
  | succ n ih =>
      intro j
      rw [List.range_succ, List.find?_append]
      cases hf : (List.range n).find? P with
      | some j' =>
          obtain ⟨hj', hPj', hmin'⟩ := (ih j').mp hf
          simp only [Option.or]
          constructor
          · intro h
            injection h with h
            subst h
            exact ⟨by omega, hPj', hmin'⟩
          · rintro ⟨hj, hPj, hmin⟩
            have : j = j' := by
              rcases Nat.lt_trichotomy j j' with h | h | h
              · exact absurd hPj (by simp [hmin' j h])
              · exact h
              · exact absurd hPj' (by simp [hmin j' h])
            rw [this]
      | none =>
          have hnone : ∀ i, i < n → P i = false := (range_find?_eq_none P n).mp hf
          simp only [Option.or]
          cases hPn : P n with
          | true =>
              have : List.find? P [n] = some n := by simp [List.find?_cons, hPn]
              rw [this]
              constructor
              · intro h
                injection h with h
                subst h
                exact ⟨by omega, hPn, hnone⟩
              · rintro ⟨hj, hPj, hmin⟩
                have : j = n := by
                  rcases Nat.lt_trichotomy j n with h | h | h
                  · exact absurd hPj (by simp [hnone j h])
                  · exact h
                  · omega
                rw [this]
          | false =>
              have : List.find? P [n] = none := by simp [List.find?_cons, hPn]
              rw [this]
              constructor
              · intro h
                cases h
              · rintro ⟨hj, hPj, hmin⟩
                rcases Nat.lt_trichotomy j n with h | h | h
                · exact absurd hPj (by simp [hnone j h])
                · subst h
                  rw [hPn] at hPj
                  cases hPj
                · omega

theorem drop_cons_frame (rs : List Record) (m : Nat) (r : Record) (rest : List Record)
    (h : rs.drop m = r :: rest) :
    rs.getD m dRec = r ∧ rs.drop (m + 1) = rest ∧ m < rs.length ∧ r ∈ rs := by
  have h0 : rs[m]? = some r := by
    have h1 := List.getElem?_drop rs m 0
    rw [h] at h1
    simpa using h1.symm
  refine ⟨?_, ?_, ?_, ?_⟩
  · rw [List.getD_eq_getElem?_getD, h0]
    rfl
  · rw [← List.tail_drop, h]
    rfl
  · exact (List.getElem?_eq_some_iff.mp h0).1
  · exact List.getElem?_mem h0

theorem portOk_imp (nodes : Nat) (r : Record) (h : portOk nodes r = true) (line : Nat) :
    portRangeCheckOpt nodes line r = .ok () := by
  unfold portOk at h
  unfold portRangeCheckOpt
  cases hmin : r.port_min with
  | none => simp [hmin]
  | some pmin =>
      cases hmax : r.port_max with
      | none => simp [hmin, hmax]
      | some pmax =>
          rw [hmin, hmax] at h
          simp only [Bool.and_eq_true, Bool.not_eq_true', decide_eq_false_iff_not] at h
          simp only [portRangeCheck]
          rw [if_neg h.1, if_neg h.2]

theorem lookupS_insert_inv (old : List (String × Nat)) (g : Nat → String) (m : Nat)
    (hold : ∀ v, lookupS old v = ((List.range m).find? (fun j => g j = v)).map (· + 2))
    (hnone : (List.range m).find? (fun j => g j = g m) = none) (v : String) :
    lookupS ((g m, m + 2) :: old) v
      = ((List.range (m + 1)).find? (fun j => g j = v)).map (· + 2) := by
  rw [lookupS, List.range_succ, List.find?_append]
  by_cases hv : g m = v
  · subst hv
    rw [if_pos rfl, hnone]
    simp [List.find?_cons]
  · rw [if_neg hv, hold v]
    have hlast : List.find? (fun j => decide (g j = v)) [m] = none := by
      simp [List.find?_cons, hv]
    cases hfind : (List.range m).find? (fun j => decide (g j = v)) with
    | some j => simp [hfind]
    | none => simp [hfind, hlast]

theorem ifsIpsCheck_ok (line : Nat) (name : String) (l : List String)
    (h : ∀ ip ∈ l, strContains ip '/' = true) : ifsIpsCheck line name l = .ok () := by
  induction l with
  | nil => rfl
  | cons ip rest ih =>
      rw [ifsIpsCheck, if_pos (h ip (by simp))]
      exact ih (fun x hx => h x (by simp [hx]))

/-- The validator loop either certifies that no record from position `m`
onward duplicates any earlier record's field value, or stops at the first
such duplicate in scan order and reports the two lines, the field, and the
later record's name — and nothing else. -/
theorem checkLoop_char (pk : String → String) (nodes : Nat) (rs : List Record)
    (hkeys : ∀ r ∈ rs, r.privkey.isSome)
    (hports : ∀ r ∈ rs, portOk nodes r = true)
    (hmask : ∀ r ∈ rs, maskOk r = true) :
    ∀ (rest : List Record) (m : Nat) (maps : DupMaps),
    rs.drop m = rest →
    (∀ f, f < 4 → ∀ v, lookupS (mapsProj maps f) v
        = ((List.range m).find? (fun j => fv pk rs j f = v)).map (· + 2)) →
    ((∀ k f j, m ≤ k → k < rs.length → f < 4 → j < k → fv pk rs j f ≠ fv pk rs k f)
        ∧ checkLoop pk nodes (m + 2) maps rest = .ok ())
    ∨ (∃ j k f, m ≤ k ∧ firstDupFrom pk rs m j k f
        ∧ checkLoop pk nodes (m + 2) maps rest
            = .error (.duplicateField (j + 2) (fv pk rs k 0) (fieldName f) (k + 2))) := by
  intro rest
  induction rest with
  | nil =>
      intro m maps hdrop _
      left
      refine ⟨?_, rfl⟩
      intro k f j hmk hk _ _
      have hlen : rs.length - m = 0 := by
        have := congrArg List.length hdrop
        simpa [List.length_drop] using this
      omega
  | cons r rest' ih =>
      intro m maps hdrop hInv
      obtain ⟨hget, hdrop', hmlt, hmem⟩ := drop_cons_frame rs m r rest' hdrop
      obtain ⟨key, hkey⟩ := Option.isSome_iff_exists.mp (hkeys r hmem)
      have hfv0 : fv pk rs m 0 = r.name := by
        show fieldVal pk (rs.getD m dRec) 0 = r.name
        rw [hget]
        rfl
      have hfv1 : fv pk rs m 1 = r.interface := by
        show fieldVal pk (rs.getD m dRec) 1 = r.interface
        rw [hget]
        rfl
      have hfv2 : fv pk rs m 2 = ipString r.loopback := by
        show fieldVal pk (rs.getD m dRec) 2 = ipString r.loopback
        rw [hget]
        rfl
      have hfv3 : fv pk rs m 3 = pk key := by
        show fieldVal pk (rs.getD m dRec) 3 = pk key
        rw [hget]
        show pk (r.privkey.getD "") = pk key
        rw [hkey]
        rfl
      have hcleanOf : ∀ f, f < 4 → lookupS (mapsProj maps f) (fv pk rs m f) = none →
          ∀ j2, j2 < m → fv pk rs j2 f ≠ fv pk rs m f := by
        intro f hf hnone j2 hj2
        have hI := (hInv f hf (fv pk rs m f)).symm.trans hnone
        have hfind := Option.map_eq_none'.mp hI
        exact of_decide_eq_false ((range_find?_eq_none _ m).mp hfind j2 hj2)
      cases hL0 : lookupS maps.dnames r.name with
      | some p =>
          have hfind0 : ((List.range m).find?
              (fun j => fv pk rs j 0 = r.name)).map (· + 2) = some p :=
            (hInv 0 (by omega) r.name).symm.trans hL0
          obtain ⟨j, hjfind, hjp⟩ := Option.map_eq_some'.mp hfind0
          obtain ⟨hjm, hPj, hmin⟩ := (range_find?_eq_some _ m j).mp hjfind
          right
          refine ⟨j, m, 0, Nat.le_refl m, ⟨⟨hjm, hmlt, by omega, ?_⟩, ?_, ?_, ?_⟩, ?_⟩
          · rw [hfv0]
            exact of_decide_eq_true hPj
          · intro j2 hj2
            rw [hfv0]
            exact of_decide_eq_false (hmin j2 hj2)
          · intro f2 j2 hf2 _
            omega
          · intro k2 f2 j2 hmk2 hk2m _ _
            omega
          · simp only [checkLoop, checkRecord, hkey, hL0, hfv0, fieldName, ← hjp]
      | none =>
      cases hL1 : lookupS maps.difaces r.interface with
      | some p =>
          have hfind1 : ((List.range m).find?
              (fun j => fv pk rs j 1 = r.interface)).map (· + 2) = some p :=
            (hInv 1 (by omega) r.interface).symm.trans hL1
          obtain ⟨j, hjfind, hjp⟩ := Option.map_eq_some'.mp hfind1
          obtain ⟨hjm, hPj, hmin⟩ := (range_find?_eq_some _ m j).mp hjfind
          right
          refine ⟨j, m, 1, Nat.le_refl m, ⟨⟨hjm, hmlt, by omega, ?_⟩, ?_, ?_, ?_⟩, ?_⟩
          · rw [hfv1]
            exact of_decide_eq_true hPj
          · intro j2 hj2
            rw [hfv1]
            exact of_decide_eq_false (hmin j2 hj2)
          · intro f2 j2 hf2 hj2
            interval_cases f2
            exact hcleanOf 0 (by omega) (by simpa [mapsProj, hfv0] using hL0) j2 hj2
          · intro k2 f2 j2 hmk2 hk2m _ _
            omega
          · simp only [checkLoop, checkRecord, hkey, hL0, hL1, hfv0, hfv1,
              fieldName, ← hjp]
      | none =>
      cases hL2 : lookupS maps.dloops (ipString r.loopback) with
      | some p =>
          have hfind2 : ((List.range m).find?
              (fun j => fv pk rs j 2 = ipString r.loopback)).map (· + 2) = some p :=
            (hInv 2 (by omega) (ipString r.loopback)).symm.trans hL2
          obtain ⟨j, hjfind, hjp⟩ := Option.map_eq_some'.mp hfind2
          obtain ⟨hjm, hPj, hmin⟩ := (range_find?_eq_some _ m j).mp hjfind
          right
          refine ⟨j, m, 2, Nat.le_refl m, ⟨⟨hjm, hmlt, by omega, ?_⟩, ?_, ?_, ?_⟩, ?_⟩
          · rw [hfv2]
            exact of_decide_eq_true hPj
          · intro j2 hj2
            rw [hfv2]
            exact of_decide_eq_false (hmin j2 hj2)
          · intro f2 j2 hf2 hj2
            interval_cases f2
            · exact hcleanOf 0 (by omega) (by simpa [mapsProj, hfv0] using hL0) j2 hj2
            · exact hcleanOf 1 (by omega) (by simpa [mapsProj, hfv1] using hL1) j2 hj2
          · intro k2 f2 j2 hmk2 hk2m _ _
            omega
          · simp only [checkLoop, checkRecord, hkey, hL0, hL1, hL2, hfv0, hfv2,
              fieldName, ← hjp]
      | none =>
      cases hL3 : lookupS maps.dkeys (pk key) with
      | some p =>
          have hfind3 : ((List.range m).find?
              (fun j => fv pk rs j 3 = pk key)).map (· + 2) = some p :=
            (hInv 3 (by omega) (pk key)).symm.trans hL3
          obtain ⟨j, hjfind, hjp⟩ := Option.map_eq_some'.mp hfind3
          obtain ⟨hjm, hPj, hmin⟩ := (range_find?_eq_some _ m j).mp hjfind
          right
          refine ⟨j, m, 3, Nat.le_refl m, ⟨⟨hjm, hmlt, by omega, ?_⟩, ?_, ?_, ?_⟩, ?_⟩
          · rw [hfv3]
            exact of_decide_eq_true hPj
          · intro j2 hj2
            rw [hfv3]
            exact of_decide_eq_false (hmin j2 hj2)
          · intro f2 j2 hf2 hj2
            interval_cases f2
            · exact hcleanOf 0 (by omega) (by simpa [mapsProj, hfv0] using hL0) j2 hj2
            · exact hcleanOf 1 (by omega) (by simpa [mapsProj, hfv1] using hL1) j2 hj2
            · exact hcleanOf 2 (by omega) (by simpa [mapsProj, hfv2] using hL2) j2 hj2
          · intro k2 f2 j2 hmk2 hk2m _ _
            omega
          · simp only [checkLoop, checkRecord, hkey, hL0, hL1, hL2, hL3, hfv0, hfv3,
              fieldName, ← hjp]
      | none =>
          have hclean4 : ∀ f, f < 4 → ∀ j2, j2 < m → fv pk rs j2 f ≠ fv pk rs m f := by
            intro f hf
            interval_cases f
            · exact hcleanOf 0 (by omega) (by simpa [mapsProj, hfv0] using hL0)
            · exact hcleanOf 1 (by omega) (by simpa [mapsProj, hfv1] using hL1)
            · exact hcleanOf 2 (by omega) (by simpa [mapsProj, hfv2] using hL2)
            · exact hcleanOf 3 (by omega) (by simpa [mapsProj, hfv3] using hL3)
          have hnone4 : ∀ f, f < 4 →
              (List.range m).find? (fun j => fv pk rs j f = fv pk rs m f) = none := by
            intro f hf
            rw [range_find?_eq_none]
            intro i hi
            exact decide_eq_false (hclean4 f hf i hi)
          have hpr := portOk_imp nodes r (hports r hmem) (m + 2)
          have hmk := ifsIpsCheck_ok (m + 2) r.name (r.ifs_ips.getD [])
            (List.all_eq_true.mp (hmask r hmem))
          have hcr : checkRecord pk nodes (m + 2) maps r
              = .ok ⟨(r.name, m + 2) :: maps.dnames, (r.interface, m + 2) :: maps.difaces,
                     (ipString r.loopback, m + 2) :: maps.dloops,
                     (pk key, m + 2) :: maps.dkeys⟩ := by
            simp only [checkRecord, hkey, hL0, hL1, hL2, hL3, hpr, hmk]
          have hInv' : ∀ f, f < 4 → ∀ v,
              lookupS (mapsProj ⟨(r.name, m + 2) :: maps.dnames,
                (r.interface, m + 2) :: maps.difaces,
                (ipString r.loopback, m + 2) :: maps.dloops,
                (pk key, m + 2) :: maps.dkeys⟩ f) v
              = ((List.range (m + 1)).find? (fun j => fv pk rs j f = v)).map (· + 2) := by
            intro f hf v
            interval_cases f
            · rw [show mapsProj ⟨(r.name, m + 2) :: maps.dnames,
                    (r.interface, m + 2) :: maps.difaces,
                    (ipString r.loopback, m + 2) :: maps.dloops,
                    (pk key, m + 2) :: maps.dkeys⟩ 0
                  = (fv pk rs m 0, m + 2) :: maps.dnames by rw [hfv0]; rfl]
              exact lookupS_insert_inv maps.dnames (fun j => fv pk rs j 0) m
                (hInv 0 (by omega)) (hnone4 0 (by omega)) v
            · rw [show mapsProj ⟨(r.name, m + 2) :: maps.dnames,
                    (r.interface, m + 2) :: maps.difaces,
                    (ipString r.loopback, m + 2) :: maps.dloops,
                    (pk key, m + 2) :: maps.dkeys⟩ 1
                  = (fv pk rs m 1, m + 2) :: maps.difaces by rw [hfv1]; rfl]
              exact lookupS_insert_inv maps.difaces (fun j => fv pk rs j 1) m
                (hInv 1 (by omega)) (hnone4 1 (by omega)) v
            · rw [show mapsProj ⟨(r.name, m + 2) :: maps.dnames,
                    (r.interface, m + 2) :: maps.difaces,
                    (ipString r.loopback, m + 2) :: maps.dloops,
                    (pk key, m + 2) :: maps.dkeys⟩ 2
                  = (fv pk rs m 2, m + 2) :: maps.dloops by rw [hfv2]; rfl]
              exact lookupS_insert_inv maps.dloops (fun j => fv pk rs j 2) m
                (hInv 2 (by omega)) (hnone4 2 (by omega)) v
            · rw [show mapsProj ⟨(r.name, m + 2) :: maps.dnames,
                    (r.interface, m + 2) :: maps.difaces,
                    (ipString r.loopback, m + 2) :: maps.dloops,
                    (pk key, m + 2) :: maps.dkeys⟩ 3
                  = (fv pk rs m 3, m + 2) :: maps.dkeys by rw [hfv3]; rfl]
              exact lookupS_insert_inv maps.dkeys (fun j => fv pk rs j 3) m
                (hInv 3 (by omega)) (hnone4 3 (by omega)) v
          have hstep : checkLoop pk nodes (m + 2) maps (r :: rest')
              = checkLoop pk nodes (m + 1 + 2)
                  ⟨(r.name, m + 2) :: maps.dnames, (r.interface, m + 2) :: maps.difaces,
                   (ipString r.loopback, m + 2) :: maps.dloops,
                   (pk key, m + 2) :: maps.dkeys⟩ rest' := by
            simp only [checkLoop, hcr]
          rcases ih (m + 1) _ hdrop' hInv' with ⟨hcl, hok⟩ | ⟨j, k, f, hk1, hfd, herr⟩
          · left
            refine ⟨?_, by rw [hstep]; exact hok⟩
            intro k f j hmk hkl hf hjk
            rcases Nat.eq_or_lt_of_le hmk with heq | hlt
            · subst heq
              exact hclean4 f hf j hjk
            · exact hcl k f j (by omega) hkl hf hjk
          · right
            refine ⟨j, k, f, by omega, ⟨hfd.1, hfd.2.1, hfd.2.2.1, ?_⟩,
              by rw [hstep]; exact herr⟩
            intro k2 f2 j2 hmk2 hk2 hj2 hf2
            rcases Nat.eq_or_lt_of_le hmk2 with heq | hlt
            · subst heq
              exact hclean4 f2 hf2 j2 hj2
            · exact hfd.2.2.2 k2 f2 j2 (by omega) hk2 hj2 hf2

/-! ## Claim C4 -/

/-- C4 (amended): for every record set in which two records share a value
in one of the four uniqueness fields (name, interface, loopback in
canonical string form, derived public key), provided no other validation
failure preempts the scan (every record has a private key, passes the port
check, and has prefixed `ifs_ips` entries), the validator reports exactly
one `DuplicateField` failure — the first encountered in file order
(records in order, the four fields in array order, the earliest previous
occurrence as the reported line) — and its message names the duplicated
field, the line of the earlier conflicting record, and the line and the
name of the later record only: the earlier record's name is not part of
the report. -/
theorem c4_duplicate_report (pk : String → String) (rs : List Record)
    (hkeys : ∀ r ∈ rs, r.privkey.isSome)
    (hports : ∀ r ∈ rs, portOk (rs.length % 2 ^ 16) r = true)
    (hmask : ∀ r ∈ rs, maskOk r = true)
    (hdup : ∃ j k f, dupAt pk rs f j k) :
    ∃ j k f, firstDup pk rs j k f
      ∧ check pk rs
          = .error (.duplicateField (j + 2) (fv pk rs k 0) (fieldName f) (k + 2)) := by
  have hInv0 : ∀ f, f < 4 → ∀ v, lookupS (mapsProj emptyMaps f) v
      = ((List.range 0).find? (fun j => fv pk rs j f = v)).map (· + 2) := by
    intro f hf v
    have : mapsProj emptyMaps f = [] := by
      interval_cases f <;> rfl
    rw [this]
    rfl
  have hloop := checkLoop_char pk (rs.length % 2 ^ 16) rs hkeys hports hmask rs 0
    emptyMaps (by simp) hInv0
  rcases hloop with ⟨hclean, _⟩ | ⟨j, k, f, _, hfd, herr⟩
  · obtain ⟨j, k, f, hd⟩ := hdup
    exact absurd hd.2.2.2 (hclean k f j (by omega) hd.2.1 hd.2.2.1 hd.1)
  · exact ⟨j, k, f, hfd, herr⟩

/-- C4 counterexample: the claim as stated fails on the code.  (i) In the
set `[a, b-without-privkey, c-sharing-a's-interface]`, two records share a
uniqueness value yet the validator reports `MissingPrivateKey`, not a
`DuplicateField`.  (ii) The duplicate report does not name the earlier
record: the sets `[a, b-dup]` and `[z, b-dup]` differ only in the earlier
record's name, yet produce the identical error value (the message holds
the earlier line, the field, and the later record's name and line only). -/
theorem c4_counterexample :
    check (fun s => s) [cA, cBnoKey, cCdupA] = .error (.missingPrivkey 3 "b")
    ∧ cA.interface = cCdupA.interface
    ∧ check (fun s => s) [cA, cBdupA] = .error (.duplicateField 2 "b" "interface" 3)
    ∧ check (fun s => s) [cZ, cBdupA] = .error (.duplicateField 2 "b" "interface" 3)
    ∧ cZ.name ≠ cA.name :=
  ⟨by decide, by decide, by decide, by decide, by decide⟩

/-- C4 witness: the amended claim at the two-record set `[a, b-dup]`
sharing the interface value: all hypotheses hold, and the theorem yields
the `DuplicateField` report of the first duplicate. -/
theorem c4_witness :
    ((∀ r ∈ [cA, cBdupA], r.privkey.isSome)
      ∧ (∀ r ∈ [cA, cBdupA],
          portOk (([cA, cBdupA] : List Record).length % 2 ^ 16) r = true)
      ∧ (∀ r ∈ [cA, cBdupA], maskOk r = true)
      ∧ dupAt (fun s => s) [cA, cBdupA] 1 0 1)
    ∧ ∃ j k f, firstDup (fun s => s) [cA, cBdupA] j k f
        ∧ check (fun s => s) [cA, cBdupA]
            = .error (.duplicateField (j + 2) (fv (fun s => s) [cA, cBdupA] k 0)
                (fieldName f) (k + 2)) :=
  ⟨⟨by decide, by decide, by decide, by constructor <;> decide⟩,
   c4_duplicate_report (fun s => s) [cA, cBdupA] (by decide) (by decide) (by decide)
     ⟨0, 1, 1, by constructor <;> decide⟩⟩

/-! ## Claim C3 -/

/-- C3 (amended): for every record with both `port_min` and `port_max`
present (and a private key, so the earlier checks pass), the validator's
per-record check fails with `InvalidPortRange` exactly when
`port_max < port_min`, and otherwise fails with `InsufficientPorts`
exactly when the 16-bit range computation `(port_max − port_min + 1) mod
2^16` — which wraps to 0 for the full range `port_min = 0, port_max =
65535` — is below the node count `N`, reporting the node's name, `N`, and
that computed range; otherwise the record is accepted. -/
theorem c3_port_validation (pk : String → String) (nodes line : Nat) (r : Record)
    (pmin pmax : Nat) (hpmin : r.port_min = some pmin) (hpmax : r.port_max = some pmax)
    (hkey : r.privkey.isSome) (hmask : maskOk r = true) :
    (pmax < pmin → checkRecord pk nodes line emptyMaps r
        = .error (.invalidPortRange line r.name))
    ∧ (pmin ≤ pmax → (pmax - pmin + 1) % 2 ^ 16 < nodes →
        checkRecord pk nodes line emptyMaps r
          = .error (.insufficientPorts line r.name nodes
              ((pmax - pmin + 1) % 2 ^ 16) pmin pmax))
    ∧ (pmin ≤ pmax → ¬ (pmax - pmin + 1) % 2 ^ 16 < nodes →
        ∃ m, checkRecord pk nodes line emptyMaps r = .ok m) := by
  obtain ⟨k, hk⟩ := Option.isSome_iff_exists.mp hkey
  have hmask' : ifsIpsCheck line r.name (r.ifs_ips.getD []) = .ok () :=
    ifsIpsCheck_ok line r.name _ (List.all_eq_true.mp hmask)
  simp only [checkRecord, hk, emptyMaps, lookupS, portRangeCheckOpt, hpmin, hpmax,
    portRangeCheck, hmask']
  refine ⟨fun h1 => ?_, fun h1 h2 => ?_, fun h1 h2 => ?_⟩
  · rw [if_pos h1]
  · rw [if_neg (by omega), if_pos h2]
  · rw [if_neg (by omega), if_neg h2]
    exact ⟨_, rfl⟩

/-- C3 counterexample: the claim as stated fails on the code at the corner
`port_min = 0, port_max = 65535` in a 2-node mesh: the true range
`port_max − port_min + 1 = 65536` is not below `N = 2`, so the claim says
the record is accepted, but the code's 16-bit range computation wraps to 0
and rejects it with `InsufficientPorts` (reporting range 0). -/
theorem c3_counterexample :
    checkRecord (fun s => s) 2 2 emptyMaps cP0
      = .error (.insufficientPorts 2 "a" 2 0 0 65535)
    ∧ ¬ (65535 - 0 + 1 < 2) :=
  ⟨by decide, by decide⟩

/-- C3 witness: the record of the claim text (`port_min = 1000`,
`port_max = 1050`) is accepted in a 10-node mesh and rejected in a 60-node
mesh with `InsufficientPorts`, reporting the name, 60, and range 51. -/
theorem c3_witness :
    (cA.port_min = some 1000 ∧ cA.port_max = some 1050
      ∧ cA.privkey.isSome ∧ maskOk cA = true ∧ (1000 : Nat) ≤ 1050)
    ∧ (∃ m, checkRecord (fun s => s) 10 2 emptyMaps cA = .ok m)
    ∧ checkRecord (fun s => s) 60 2 emptyMaps cA
        = .error (.insufficientPorts 2 "a" 60 51 1000 1050) :=
  ⟨⟨by decide, by decide, by decide, by decide, by decide⟩,
   (c3_port_validation (fun s => s) 10 2 cA 1000 1050 rfl rfl (by decide)
       (by decide)).2.2 (by decide) (by decide),
   ((c3_port_validation (fun s => s) 60 2 cA 1000 1050 rfl rfl (by decide)
       (by decide)).2.1 (by decide) (by decide)).trans (by decide)⟩

/-! ## Helper lemmas: shapes of the emitted chunks -/

theorem mem_idxMap {f : Nat → α → β} {y : β} :
    ∀ {b : Nat} {l : List α}, y ∈ idxMap f b l → ∃ k a, y = f k a := by
  intro b l
  induction l generalizing b with
  | nil => intro h; cases h
  | cons a t ih =>
      intro h
      rcases List.mem_cons.mp h with h | h
      · exact ⟨b, a, h⟩
      · exact ih h

theorem wgIfChunk_shape (records : List Record) (r : Record) :
    ∀ x ∈ wgIfChunk records r, ∃ a b c, x = Stmt.addWgIf a b c := by
  intro x hx
  obtain ⟨k, a, rfl⟩ := mem_idxMap hx
  exact ⟨_, _, _, rfl⟩

theorem peerChunk_shape (pk : String → String) (records : List Record) (r : Record) :
    ∀ x ∈ peerChunk pk records r, ∃ a b c d e f, x = Stmt.addWgPeer a b c d e f := by
  intro x hx
  obtain ⟨p, _, rfl⟩ := List.mem_map.mp hx
  exact ⟨_, _, _, _, _, _, rfl⟩

theorem ptpChunk_shape (records : List Record) (start : IpAddr) (r : Record) :
    ∀ x ∈ ptpChunk records start r, ∃ a i, x = Stmt.addIpAddr a 31 i := by
  intro x hx
  obtain ⟨c, _, hx⟩ := List.mem_flatMap.mp hx
  rcases List.mem_append.mp hx with h | h
  · by_cases hc : c.2.1.name = r.name
    · rw [if_pos hc] at h
      rcases List.mem_singleton.mp h with rfl
      exact ⟨_, _, rfl⟩
    · rw [if_neg hc] at h
      cases h
  · by_cases hc : c.2.2.name = r.name
    · rw [if_pos hc] at h
      rcases List.mem_singleton.mp h with rfl
      exact ⟨_, _, rfl⟩
    · rw [if_neg hc] at h
      cases h

theorem bridgePortChunk_shape (r : Record) :
    ∀ x ∈ bridgePortChunk r, ∃ a b, x = Stmt.addBridgePort a b := by
  intro x hx
  obtain ⟨p, _, rfl⟩ := List.mem_map.mp hx
  exact ⟨_, _, rfl⟩

theorem vxlanChunk_shape (r : Record) :
    ∀ x ∈ vxlanChunk r, ∃ a b, x = Stmt.addVxlan a b := by
  intro x hx
  obtain ⟨v, _, rfl⟩ := List.mem_map.mp hx
  exact ⟨_, _, rfl⟩

theorem bgpConnStmts_shape (asNum : Nat) (records : List Record) (r : Record) :
    ∀ x ∈ bgpConnStmts asNum records r, ∃ a b c d, x = Stmt.addBgpConn a b c d := by
  intro x hx
  obtain ⟨b, _, rfl⟩ := List.mem_map.mp hx
  exact ⟨_, _, _, _, rfl⟩

theorem bgpEvpnChunk_shape (asNum : Nat) (r : Record) :
    ∀ x ∈ bgpEvpnChunk asNum r, ∃ a b, x = Stmt.addBgpEvpn a b := by
  intro x hx
  obtain ⟨v, _, rfl⟩ := List.mem_map.mp hx
  exact ⟨_, _, rfl⟩

theorem vlanIfChunk_shape (r : Record) :
    ∀ x ∈ vlanIfChunk r, ∃ a, x = Stmt.addVlanIf a := by
  intro x hx
  obtain ⟨v, _, rfl⟩ := List.mem_map.mp hx
  exact ⟨_, rfl⟩

theorem vlanIpChunk_shape (r : Record) :
    ∀ x ∈ vlanIpChunk r, ∃ a b, x = Stmt.addVlanIp a b := by
  intro x hx
  obtain ⟨p, _, rfl⟩ := List.mem_map.mp hx
  exact ⟨_, _, rfl⟩

theorem macvlanChunk_shape (entropy : Nat → Nat) (vs : List Nat) :
    ∀ x ∈ macvlanChunk entropy vs, ∃ a b, x = Stmt.addMacvlan a b := by
  intro x hx
  obtain ⟨kv, _, rfl⟩ := List.mem_map.mp hx
  exact ⟨_, _, rfl⟩

theorem anycastIps_shape (vs : List Nat) (ads : List IpAddr) :
    ∀ x ∈ (vs.zip ads).map (fun p => Stmt.addAnycastIp p.1 p.2),
      ∃ a b, x = Stmt.addAnycastIp a b := by
  intro x hx
  obtain ⟨p, _, rfl⟩ := List.mem_map.mp hx
  exact ⟨_, _, rfl⟩

/-! ## Helper lemmas: the remove-before-add scanners -/

theorem runScan_append (l1 l2 : List Stmt) (s : ScanSt) :
    runScan s (l1 ++ l2)
      = match runScan s l1 with
        | none => none
        | some s' => runScan s' l2 := by
  induction l1 generalizing s with
  | nil => rfl
  | cons x rest ih =>
      simp only [List.cons_append, runScan]
      cases scanStep s x with
      | none => rfl
      | some s' => exact ih s'

theorem runScan_adds (l : List Stmt) (s : ScanSt)
    (h : ∀ x ∈ l, isTaggedAdd x = true) (hc : s.current ∈ s.covered) :
    runScan s l = some s := by
  induction l with
  | nil => rfl
  | cons x rest ih =>
      have hx := h x (by simp)
      have hstep : scanStep s x = some s := by
        cases x <;> simp [isTaggedAdd] at hx ⊢ <;> simp [scanStep, hc]
      rw [runScan, hstep]
      exact ih (fun y hy => h y (by simp [hy]))

theorem runScan_section (p : String) (adds : List Stmt) (s : ScanSt)
    (h : ∀ x ∈ adds, isTaggedAdd x = true) :
    runScan s (Stmt.secHeader p :: Stmt.removeTag :: adds)
      = some ⟨p, p :: s.covered⟩ := by
  have h1 : runScan s (Stmt.secHeader p :: Stmt.removeTag :: adds)
      = runScan ⟨p, p :: s.covered⟩ adds := rfl
  rw [h1]
  exact runScan_adds adds _ h (by simp)

theorem runScan_headerOnly (p : String) (adds : List Stmt) (s : ScanSt)
    (h : ∀ x ∈ adds, isTaggedAdd x = true) (hp : p ∈ s.covered) :
    runScan s (Stmt.secHeader p :: adds) = some ⟨p, s.covered⟩ := by
  have h1 : runScan s (Stmt.secHeader p :: adds)
      = runScan ⟨p, s.covered⟩ adds := rfl
  rw [h1]
  exact runScan_adds adds _ h (by simpa using hp)

theorem runScan_comment (n : String) (s : ScanSt) (rest : List Stmt) :
    runScan s (Stmt.genComment n :: rest) = runScan s rest := rfl

theorem runScan_secHeader (p : String) (s : ScanSt) (rest : List Stmt) :
    runScan s (Stmt.secHeader p :: rest) = runScan ⟨p, s.covered⟩ rest := rfl

theorem runScan_removeTag (s : ScanSt) (rest : List Stmt) :
    runScan s (Stmt.removeTag :: rest)
      = runScan ⟨s.current, s.current :: s.covered⟩ rest := rfl

theorem runScan_taggedCons (x : Stmt) (s : ScanSt) (rest : List Stmt)
    (hx : isTaggedAdd x = true) (hc : s.current ∈ s.covered) :
    runScan s (x :: rest) = runScan s rest := by
  have hstep : scanStep s x = some s := by
    cases x <;> simp [isTaggedAdd] at hx ⊢ <;> simp [scanStep, hc]
  rw [runScan, hstep]

theorem runScan_adds_append (adds rest : List Stmt) (s : ScanSt)
    (h : ∀ x ∈ adds, isTaggedAdd x = true) (hc : s.current ∈ s.covered) :
    runScan s (adds ++ rest) = runScan s rest := by
  rw [runScan_append, runScan_adds adds s h hc]

theorem wgIfChunk_tagged (records : List Record) (r : Record) :
    ∀ x ∈ wgIfChunk records r, isTaggedAdd x = true := by
  intro x hx
  obtain ⟨a, b, c, rfl⟩ := wgIfChunk_shape records r x hx
  rfl

theorem peerChunk_tagged (pk : String → String) (records : List Record) (r : Record) :
    ∀ x ∈ peerChunk pk records r, isTaggedAdd x = true := by
  intro x hx
  obtain ⟨a, b, c, d, e, f, rfl⟩ := peerChunk_shape pk records r x hx
  rfl

theorem ptpChunk_tagged (records : List Record) (start : IpAddr) (r : Record) :
    ∀ x ∈ ptpChunk records start r, isTaggedAdd x = true := by
  intro x hx
  obtain ⟨a, i, rfl⟩ := ptpChunk_shape records start r x hx
  rfl

theorem bridgePortChunk_tagged (r : Record) :
    ∀ x ∈ bridgePortChunk r, isTaggedAdd x = true := by
  intro x hx
  obtain ⟨a, b, rfl⟩ := bridgePortChunk_shape r x hx
  rfl

theorem vxlanChunk_tagged (r : Record) :
    ∀ x ∈ vxlanChunk r, isTaggedAdd x = true := by
  intro x hx
  obtain ⟨a, b, rfl⟩ := vxlanChunk_shape r x hx
  rfl

theorem bgpConnStmts_tagged (asNum : Nat) (records : List Record) (r : Record) :
    ∀ x ∈ bgpConnStmts asNum records r, isTaggedAdd x = true := by
  intro x hx
  obtain ⟨a, b, c, d, rfl⟩ := bgpConnStmts_shape asNum records r x hx
  rfl

theorem bgpEvpnChunk_tagged (asNum : Nat) (r : Record) :
    ∀ x ∈ bgpEvpnChunk asNum r, isTaggedAdd x = true := by
  intro x hx
  obtain ⟨a, b, rfl⟩ := bgpEvpnChunk_shape asNum r x hx
  rfl

theorem vlanIfChunk_tagged (r : Record) :
    ∀ x ∈ vlanIfChunk r, isTaggedAdd x = true := by
  intro x hx
  obtain ⟨a, rfl⟩ := vlanIfChunk_shape r x hx
  rfl

theorem vlanIpChunk_tagged (r : Record) :
    ∀ x ∈ vlanIpChunk r, isTaggedAdd x = true := by
  intro x hx
  obtain ⟨a, b, rfl⟩ := vlanIpChunk_shape r x hx
  rfl

theorem macvlanChunk_tagged (entropy : Nat → Nat) (vs : List Nat) :
    ∀ x ∈ macvlanChunk entropy vs, isTaggedAdd x = true := by
  intro x hx
  obtain ⟨a, b, rfl⟩ := macvlanChunk_shape entropy vs x hx
  rfl

theorem anycastIps_tagged (vs : List Nat) (ads : List IpAddr) :
    ∀ x ∈ (vs.zip ads).map (fun p => Stmt.addAnycastIp p.1 p.2),
      isTaggedAdd x = true := by
  intro x hx
  obtain ⟨a, b, rfl⟩ := anycastIps_shape vs ads x hx
  rfl

theorem runScan_ospfChunk_append (records : List Record) (r : Record) (s : ScanSt)
    (rest : List Stmt) :
    runScan s (ospfChunk records r ++ rest)
      = runScan ⟨ospfTmplPath,
          ospfTmplPath :: ospfAreaPath :: ospfInstPath :: s.covered⟩ rest := by
  show runScan s (Stmt.secHeader ospfInstPath :: Stmt.removeTag ::
      Stmt.addOspfInstance r.loopback :: Stmt.secHeader ospfAreaPath ::
      Stmt.removeTag :: Stmt.addOspfArea :: Stmt.secHeader ospfTmplPath ::
      Stmt.removeTag :: Stmt.addOspfLoTemplate ::
      Stmt.addOspfPtpTemplate (ospfIfList records r) :: rest) = _
  rw [runScan_secHeader, runScan_removeTag, runScan_taggedCons,
      runScan_secHeader, runScan_removeTag, runScan_taggedCons,
      runScan_secHeader, runScan_removeTag, runScan_taggedCons, runScan_taggedCons]
  all_goals first | rfl | simp

theorem runScan_evpnChunk_append (asNum : Nat) (records : List Record) (r : Record)
    (s : ScanSt) (rest : List Stmt) :
    runScan s (evpnChunk asNum records r ++ rest)
      = runScan ⟨bgpEvpnPath, bgpEvpnPath :: bgpConnPath :: bgpInstPath :: vxlanPath
          :: bridgePortPath :: bridgePath :: s.covered⟩ rest := by
  unfold evpnChunk
  simp only [List.append_assoc, List.cons_append, List.nil_append]
  rw [runScan_secHeader, runScan_removeTag, runScan_taggedCons,
      runScan_secHeader, runScan_removeTag, runScan_adds_append,
      runScan_secHeader, runScan_removeTag, runScan_adds_append,
      runScan_secHeader, runScan_removeTag, runScan_taggedCons,
      runScan_secHeader, runScan_removeTag, runScan_adds_append,
      runScan_secHeader, runScan_removeTag, runScan_adds_append]
  all_goals first
    | rfl
    | exact bridgePortChunk_tagged r
    | exact vxlanChunk_tagged r
    | exact bgpConnStmts_tagged asNum records r
    | exact bgpEvpnChunk_tagged asNum r
    | simp

theorem runScan_anycastChunk (entropy : Nat → Nat) (cliVlans : Option (List Nat))
    (anycastAddrs : Option (List IpAddr)) (s : ScanSt) (hip : ipPath ∈ s.covered) :
    (runScan s (anycastChunk entropy cliVlans anycastAddrs)).isSome = true := by
  unfold anycastChunk
  rcases cliVlans with _ | vs <;> rcases anycastAddrs with _ | ads
  · rfl
  · rfl
  · rfl
  dsimp only
  by_cases hl : vs.length = ads.length
  · rw [if_pos hl]
    simp only [List.append_assoc, List.cons_append, List.nil_append]
    rw [runScan_secHeader, runScan_removeTag, runScan_adds_append, runScan_secHeader,
        runScan_adds]
    all_goals first
      | rfl
      | exact macvlanChunk_tagged entropy vs
      | exact anycastIps_tagged vs ads
      | simp [hip]
  · rw [if_neg hl]
    rfl

theorem runScan_vlanTail (entropy : Nat → Nat) (cliVlans : Option (List Nat))
    (anycastAddrs : Option (List IpAddr)) (r : Record) (s : ScanSt)
    (hip : ipPath ∈ s.covered) :
    (runScan s (Stmt.secHeader vlanPath :: Stmt.removeTag ::
        (vlanIfChunk r ++ (Stmt.secHeader ipPath ::
          (vlanIpChunk r ++ anycastChunk entropy cliVlans anycastAddrs))))).isSome
      = true := by
  rw [runScan_secHeader, runScan_removeTag, runScan_adds_append, runScan_secHeader,
      runScan_adds_append]
  · exact runScan_anycastChunk entropy cliVlans anycastAddrs _ (by simp [hip])
  all_goals first
    | exact vlanIfChunk_tagged r
    | exact vlanIpChunk_tagged r
    | simp [hip]

theorem runScan_evpnTail (entropy : Nat → Nat) (cliVlans : Option (List Nat))
    (anycastAddrs : Option (List IpAddr)) (asNum : Nat) (records : List Record)
    (evpn : Bool) (r : Record) (s : ScanSt) (hip : ipPath ∈ s.covered) :
    (runScan s ((if evpn then evpnChunk asNum records r else []) ++
        (Stmt.secHeader vlanPath :: Stmt.removeTag ::
          (vlanIfChunk r ++ (Stmt.secHeader ipPath ::
            (vlanIpChunk r ++ anycastChunk entropy cliVlans anycastAddrs)))))).isSome
      = true := by
  cases evpn
  · rw [if_neg Bool.false_ne_true, List.nil_append]
    exact runScan_vlanTail entropy cliVlans anycastAddrs r s hip
  · rw [if_pos rfl, runScan_evpnChunk_append]
    exact runScan_vlanTail entropy cliVlans anycastAddrs r _ (by simp [hip])

theorem runScan_ospfTail (entropy : Nat → Nat) (cliVlans : Option (List Nat))
    (anycastAddrs : Option (List IpAddr)) (asNum : Nat) (records : List Record)
    (ospf evpn : Bool) (r : Record) (s : ScanSt) (hip : ipPath ∈ s.covered) :
    (runScan s ((if ospf then ospfChunk records r else []) ++
        ((if evpn then evpnChunk asNum records r else []) ++
          (Stmt.secHeader vlanPath :: Stmt.removeTag ::
            (vlanIfChunk r ++ (Stmt.secHeader ipPath ::
              (vlanIpChunk r ++ anycastChunk entropy cliVlans anycastAddrs))))))).isSome
      = true := by
  cases ospf
  · rw [if_neg Bool.false_ne_true, List.nil_append]
    exact runScan_evpnTail entropy cliVlans anycastAddrs asNum records evpn r s hip
  · rw [if_pos rfl, runScan_ospfChunk_append]
    exact runScan_evpnTail entropy cliVlans anycastAddrs asNum records evpn r _
      (by simp [hip])

theorem tagPathCovered_docFor (pk : String → String) (entropy : Nat → Nat)
    (start : IpAddr) (ospf evpn : Bool) (asNum : Nat) (cliVlans : Option (List Nat))
    (anycastAddrs : Option (List IpAddr)) (records : List Record) (r : Record) :
    tagPathCovered
      (docFor pk entropy start ospf evpn asNum cliVlans anycastAddrs records r)
      = true := by
  unfold tagPathCovered docFor
  simp only [List.append_assoc, List.cons_append, List.nil_append]
  rw [runScan_comment, runScan_secHeader, runScan_removeTag, runScan_adds_append,
      runScan_secHeader, runScan_removeTag, runScan_adds_append,
      runScan_secHeader, runScan_removeTag, runScan_taggedCons, runScan_adds_append]
  · exact runScan_ospfTail entropy cliVlans anycastAddrs asNum records ospf evpn r _
      (by simp)
  all_goals first
    | rfl
    | exact wgIfChunk_tagged records r
    | exact peerChunk_tagged pk records r
    | exact ptpChunk_tagged records start r
    | simp

/-- C5 (corrected): whenever generation succeeds, every add statement carrying
the shared tag in every node's document is preceded earlier in that document
by a remove-by-tag statement emitted under the same configuration-section
path — but not necessarily inside its own section: the VLAN-IP block and the
anycast `/ip address` block re-open `/ip address` with no fresh remove and
rely on the loopback section's remove under that same path, so the claim's
per-section reading fails (see the counterexample). -/
theorem c5_remove_before_add (pk : String → String) (entropy : Nat → Nat)
    (start : IpAddr) (ospf evpn : Bool) (asNum : Nat) (cliVlans : Option (List Nat))
    (anycastAddrs : Option (List IpAddr)) (records : List Record)
    (hnd : (records.map (·.name)).Nodup)
    (hpm : ∀ r ∈ records, ∃ p, r.port_min = some p ∧ p < 2 ^ 16)
    (hpk : ∀ r ∈ records, r.privkey.isSome)
    (hep : ∀ r ∈ records, r.endpoint.isSome)
    (hv : ∀ r ∈ records, r.vlan.isSome)
    (hvi : evpn = true → ∀ r ∈ records, r.vlan_ifs.isSome)
    (hany : ∀ vs ads, cliVlans = some vs → anycastAddrs = some ads →
      vs.length = ads.length) :
    ∃ out, genConfig pk entropy start ospf evpn asNum cliVlans anycastAddrs records
        = .ok out ∧ ∀ e ∈ out.docs, tagPathCovered e.2 = true := by
  refine ⟨_, genConfig_char pk entropy start ospf evpn asNum cliVlans anycastAddrs
    records hnd hpm hpk hep hv hvi hany, ?_⟩
  intro e he
  obtain ⟨r, _, rfl⟩ := List.mem_map.mp he
  exact tagPathCovered_docFor pk entropy start ospf evpn asNum cliVlans anycastAddrs
    records r

/-- C5 counterexample to the claim as stated: a successful two-node run (no
overlays beyond the anycast stage) in which not every section satisfies
"remove-by-tag before any add of that section" — the VLAN-IP and anycast
`/ip address` sections push their header with no remove. -/
theorem c5_counterexample :
    (genConfig (fun s => s) (fun _ => 0) (IpAddr.v4 100) false false 0
        (some [5]) (some [IpAddr.v4 9]) [cA, cB]).toOption.map
      (fun out => out.docs.all (fun e => sectionsOk e.2)) = some false := by
  decide

/-- C5 witness: the amended per-path property holds on a concrete run with
every stage enabled. -/
theorem c5_witness :
    ∃ out, genConfig (fun s => s) (fun _ => 0) (IpAddr.v4 100) true true 65000
        (some [5]) (some [IpAddr.v4 9]) [cA, cB] = .ok out ∧
      ∀ e ∈ out.docs, tagPathCovered e.2 = true :=
  c5_remove_before_add (fun s => s) (fun _ => 0) (IpAddr.v4 100) true true 65000
    (some [5]) (some [IpAddr.v4 9]) [cA, cB] (by decide)
    (by intro r hr; fin_cases hr <;> exact ⟨1000, rfl, by decide⟩)
    (by decide) (by decide) (by decide) (by decide)
    (by intro vs ads h1 h2; cases h1; cases h2; rfl)

/-! ## Helper lemmas: section headers of the emitted documents -/

theorem sectionPaths_comment (n : String) (l : List Stmt) :
    sectionPaths (Stmt.genComment n :: l) = sectionPaths l := rfl

theorem sectionPaths_secHeader (p : String) (l : List Stmt) :
    sectionPaths (Stmt.secHeader p :: l) = p :: sectionPaths l := rfl

theorem sectionPaths_removeTag (l : List Stmt) :
    sectionPaths (Stmt.removeTag :: l) = sectionPaths l := rfl

theorem sectionPaths_taggedCons (x : Stmt) (l : List Stmt)
    (hx : isTaggedAdd x = true) :
    sectionPaths (x :: l) = sectionPaths l := by
  cases x <;> first | rfl | simp [isTaggedAdd] at hx

theorem sectionPaths_tagged_append (adds l : List Stmt)
    (h : ∀ x ∈ adds, isTaggedAdd x = true) :
    sectionPaths (adds ++ l) = sectionPaths l := by
  induction adds with
  | nil => rfl
  | cons x rest ih =>
      rw [List.cons_append, sectionPaths_taggedCons x _ (h x (by simp))]
      exact ih (fun y hy => h y (by simp [hy]))

theorem sectionPaths_tagged_nil (l : List Stmt)
    (h : ∀ x ∈ l, isTaggedAdd x = true) :
    sectionPaths l = [] := by
  have h0 := sectionPaths_tagged_append l [] h
  simpa using h0

theorem sectionPaths_docFor_base (pk : String → String) (entropy : Nat → Nat)
    (start : IpAddr) (records : List Record) (r : Record) :
    sectionPaths (docFor pk entropy start false false 0 none none records r)
      = [wgPath, wgPeersPath, ipPath, vlanPath, ipPath] := by
  unfold docFor
  simp only [Bool.false_eq_true, if_false, anycastChunk, List.append_assoc,
    List.cons_append, List.nil_append, List.append_nil]
  rw [sectionPaths_comment, sectionPaths_secHeader, sectionPaths_removeTag,
      sectionPaths_tagged_append, sectionPaths_secHeader, sectionPaths_removeTag,
      sectionPaths_tagged_append, sectionPaths_secHeader, sectionPaths_removeTag,
      sectionPaths_taggedCons, sectionPaths_tagged_append, sectionPaths_secHeader,
      sectionPaths_removeTag, sectionPaths_tagged_append, sectionPaths_secHeader,
      sectionPaths_tagged_nil]
  all_goals first
    | rfl
    | exact wgIfChunk_tagged records r
    | exact peerChunk_tagged pk records r
    | exact ptpChunk_tagged records start r
    | exact vlanIfChunk_tagged r
    | exact vlanIpChunk_tagged r

/-- C6 (corrected): with OSPF and EVPN disabled and no anycast lists supplied,
generation emits only the base-mesh sections plus the VLAN stage's two
sections, and succeeds — but the VLAN sub-interface stage is not toggleable:
it runs unconditionally, so the claim's "including record sets whose records
have no vlan field" part fails with the `no vlan set` error (see the
counterexample); `vlan_ifs` and `ifs_ips` may indeed be absent. -/
theorem c6_overlay_toggle (pk : String → String) (entropy : Nat → Nat)
    (start : IpAddr) (records : List Record)
    (hnd : (records.map (·.name)).Nodup)
    (hpm : ∀ r ∈ records, ∃ p, r.port_min = some p ∧ p < 2 ^ 16)
    (hpk : ∀ r ∈ records, r.privkey.isSome)
    (hep : ∀ r ∈ records, r.endpoint.isSome)
    (hv : ∀ r ∈ records, r.vlan.isSome) :
    ∃ out, genConfig pk entropy start false false 0 none none records = .ok out ∧
      ∀ e ∈ out.docs,
        sectionPaths e.2 = [wgPath, wgPeersPath, ipPath, vlanPath, ipPath] := by
  refine ⟨_, genConfig_char pk entropy start false false 0 none none records hnd
    hpm hpk hep hv (fun h => absurd h (by decide))
    (fun vs ads h _ => Option.noConfusion h), ?_⟩
  intro e he
  obtain ⟨r, hr, rfl⟩ := List.mem_map.mp he
  exact sectionPaths_docFor_base pk entropy start records r

/-- C6 counterexample to the claim as stated: a record set meeting every
base-mesh precondition (endpoints, private keys, port_min) but with one
record lacking a vlan list fails — the VLAN sub-interface stage runs even
with all overlay flags off. -/
theorem c6_counterexample :
    genConfig (fun s => s) (fun _ => 0) (IpAddr.v4 100) false false 0 none none
      [cAnoVlan, cB] = .error .noVlan := by
  decide

/-- C6 witness: a concrete flags-off run succeeds and its documents contain
exactly the base-mesh and VLAN section headers. -/
theorem c6_witness :
    ∃ out, genConfig (fun s => s) (fun _ => 0) (IpAddr.v4 100) false false 0 none
        none [cA, cB] = .ok out ∧
      ∀ e ∈ out.docs,
        sectionPaths e.2 = [wgPath, wgPeersPath, ipPath, vlanPath, ipPath] :=
  c6_overlay_toggle (fun s => s) (fun _ => 0) (IpAddr.v4 100) [cA, cB] (by decide)
    (by intro r hr; fin_cases hr <;> exact ⟨1000, rfl, by decide⟩)
    (by decide) (by decide) (by decide)

/-- C7 (corrected): whenever generation succeeds, every node's document adds
the node's loopback address on the local loopback interface with the literal
prefix length 32 — for IPv4 *and* IPv6 loopbacks alike; a `/128` form is
never emitted for an IPv6 loopback (see the counterexample). -/
theorem c7_loopback_prefix (pk : String → String) (entropy : Nat → Nat)
    (start : IpAddr) (ospf evpn : Bool) (asNum : Nat) (cliVlans : Option (List Nat))
    (anycastAddrs : Option (List IpAddr)) (records : List Record)
    (hnd : (records.map (·.name)).Nodup)
    (hpm : ∀ r ∈ records, ∃ p, r.port_min = some p ∧ p < 2 ^ 16)
    (hpk : ∀ r ∈ records, r.privkey.isSome)
    (hep : ∀ r ∈ records, r.endpoint.isSome)
    (hv : ∀ r ∈ records, r.vlan.isSome)
    (hvi : evpn = true → ∀ r ∈ records, r.vlan_ifs.isSome)
    (hany : ∀ vs ads, cliVlans = some vs → anycastAddrs = some ads →
      vs.length = ads.length) :
    ∃ out, genConfig pk entropy start ospf evpn asNum cliVlans anycastAddrs records
        = .ok out ∧ ∀ r ∈ records,
      (r.name, docFor pk entropy start ospf evpn asNum cliVlans anycastAddrs
        records r) ∈ out.docs ∧
      Stmt.addIpAddr r.loopback 32 "lo"
        ∈ docFor pk entropy start ospf evpn asNum cliVlans anycastAddrs records r := by
  refine ⟨_, genConfig_char pk entropy start ospf evpn asNum cliVlans anycastAddrs
    records hnd hpm hpk hep hv hvi hany, ?_⟩
  intro r hr
  constructor
  · exact List.mem_map_of_mem _ hr
  · simp [docFor]

/-- C7 counterexample to the claim as stated: a successful run over a record
set whose first node has an IPv6 loopback still carries the `/32` loopback
add in some document, and the `/128` form appears nowhere in it. -/
theorem c7_counterexample :
    (genConfig (fun s => s) (fun _ => 0) (IpAddr.v4 100) false false 0 none none
        [cAv6, cB]).toOption.map
      (fun out => out.docs.any (fun e =>
        decide (Stmt.addIpAddr (IpAddr.v6 1) 32 "lo" ∈ e.2) &&
        !decide (Stmt.addIpAddr (IpAddr.v6 1) 128 "lo" ∈ e.2))) = some true := by
  decide

/-- C7 witness: the loopback `/32` add is present in a concrete run's
documents. -/
theorem c7_witness :
    ∃ out, genConfig (fun s => s) (fun _ => 0) (IpAddr.v4 100) false false 0 none
        none [cA, cB] = .ok out ∧ ∀ r ∈ [cA, cB],
      (r.name, docFor (fun s => s) (fun _ => 0) (IpAddr.v4 100) false false 0 none
        none [cA, cB] r) ∈ out.docs ∧
      Stmt.addIpAddr r.loopback 32 "lo"
        ∈ docFor (fun s => s) (fun _ => 0) (IpAddr.v4 100) false false 0 none none
          [cA, cB] r :=
  c7_loopback_prefix (fun s => s) (fun _ => 0) (IpAddr.v4 100) false false 0 none
    none [cA, cB] (by decide)
    (by intro r hr; fin_cases hr <;> exact ⟨1000, rfl, by decide⟩)
    (by decide) (by decide) (by decide) (by decide)
    (fun vs ads h _ => Option.noConfusion h)

/-! ## Helper lemmas: the generator's error paths -/

theorem wgIfPeers_isOk (s : Record) (hk : s.privkey.isSome) :
    ∀ (port : Nat) (l : List Record), ∃ v, wgIfPeers s port l = .ok v := by
  intro port l
  induction l generalizing port with
  | nil => exact ⟨([], []), rfl⟩
  | cons peer rest ih =>
      by_cases h : s.name = peer.name
      · obtain ⟨v, hv⟩ := ih port
        exact ⟨v, by simp only [wgIfPeers, if_pos h, hv]⟩
      · obtain ⟨k, hk2⟩ := Option.isSome_iff_exists.mp hk
        obtain ⟨⟨st, asg⟩, hv⟩ := ih ((port + 1) % 2 ^ 16)
        refine ⟨(.addWgIf port peer.interface k :: st,
          ((s.name, peer.name), port) :: asg), ?_⟩
        simp only [wgIfPeers, if_neg h, hk2, hv]

theorem wgIfPeers_missingPrivkey (s : Record) (hk : s.privkey = none) :
    ∀ (port : Nat) (l : List Record), (∃ p ∈ l, s.name ≠ p.name) →
      wgIfPeers s port l = .error .missingPrivkey := by
  intro port l
  induction l generalizing port with
  | nil => intro h; obtain ⟨p, hp, _⟩ := h; cases hp
  | cons peer rest ih =>
      intro hex
      by_cases h : s.name = peer.name
      · have hex2 : ∃ p ∈ rest, s.name ≠ p.name := by
          obtain ⟨w, hw, hwn⟩ := hex
          rcases List.mem_cons.mp hw with rfl | hw2
          · exact absurd h hwn
          · exact ⟨w, hw2, hwn⟩
        simp only [wgIfPeers, if_pos h]
        exact ih port hex2
      · simp only [wgIfPeers, if_neg h, hk]

theorem wgIfStage_isOk (records : List Record) :
    ∀ l : List Record, (∀ s ∈ l, s.port_min.isSome ∧ s.privkey.isSome) →
      ∃ v, wgIfStage records l = .ok v := by
  intro l
  induction l with
  | nil => exact fun _ => ⟨([], []), rfl⟩
  | cons s rest ih =>
      intro h
      obtain ⟨p, hp⟩ := Option.isSome_iff_exists.mp (h s (by simp)).1
      obtain ⟨⟨st, asg⟩, hv⟩ := wgIfPeers_isOk s (h s (by simp)).2 p records
      obtain ⟨⟨sch, asgs⟩, hrest⟩ := ih (fun t ht => h t (by simp [ht]))
      exact ⟨((s.name, st) :: sch, asg ++ asgs),
        by simp only [wgIfStage, hp, hv, hrest]⟩

theorem wgIfStage_noMinPort (records : List Record) :
    ∀ l : List Record, (∀ s ∈ l, s.privkey.isSome) →
      (∃ s ∈ l, s.port_min = none) →
      wgIfStage records l = .error .noMinPort := by
  intro l
  induction l with
  | nil => intro _ hex; obtain ⟨s, hs, _⟩ := hex; cases hs
  | cons s rest ih =>
      intro hpk hex
      cases hp : s.port_min with
      | none => simp only [wgIfStage, hp]
      | some p =>
          have hex2 : ∃ t ∈ rest, t.port_min = none := by
            obtain ⟨w, hw, hwp⟩ := hex
            rcases List.mem_cons.mp hw with rfl | hw2
            · rw [hp] at hwp; cases hwp
            · exact ⟨w, hw2, hwp⟩
          obtain ⟨⟨st, asg⟩, hv⟩ := wgIfPeers_isOk s (hpk s (by simp)) p records
          simp only [wgIfStage, hp, hv,
            ih (fun t ht => hpk t (by simp [ht])) hex2]

theorem wgIfStage_missingPrivkey (records : List Record) :
    ∀ l : List Record, (∀ s ∈ l, s.port_min.isSome) →
      (∀ s ∈ l, ∃ p ∈ records, s.name ≠ p.name) →
      (∃ s ∈ l, s.privkey = none) →
      wgIfStage records l = .error .missingPrivkey := by
  intro l
  induction l with
  | nil => intro _ _ hex; obtain ⟨s, hs, _⟩ := hex; cases hs
  | cons s rest ih =>
      intro hpm hpeer hex
      obtain ⟨p, hp⟩ := Option.isSome_iff_exists.mp (hpm s (by simp))
      cases hk : s.privkey with
      | none =>
          simp only [wgIfStage, hp,
            wgIfPeers_missingPrivkey s hk p records (hpeer s (by simp))]
      | some k =>
          have hex2 : ∃ t ∈ rest, t.privkey = none := by
            obtain ⟨w, hw, hwk⟩ := hex
            rcases List.mem_cons.mp hw with rfl | hw2
            · rw [hk] at hwk; cases hwk
            · exact ⟨w, hw2, hwk⟩
          obtain ⟨⟨st, asg⟩, hv⟩ := wgIfPeers_isOk s (by simp [hk]) p records
          simp only [wgIfStage, hp, hv,
            ih (fun t ht => hpm t (by simp [ht]))
              (fun t ht => hpeer t (by simp [ht])) hex2]

theorem peerStmts_isOk (pk : String → String)
    (ports : List ((String × String) × Nat)) (s : Record) :
    ∀ l : List Record,
      (∀ p ∈ l, s.name ≠ p.name → p.endpoint.isSome ∧ p.privkey.isSome) →
      ∃ v, peerStmts pk ports s l = .ok v := by
  intro l
  induction l with
  | nil => exact fun _ => ⟨[], rfl⟩
  | cons peer rest ih =>
      intro h
      by_cases hn : s.name = peer.name
      · obtain ⟨v, hv⟩ := ih (fun t ht hnt => h t (by simp [ht]) hnt)
        exact ⟨v, by simp only [peerStmts, if_pos hn, hv]⟩
      · obtain ⟨ep, hep⟩ :=
          Option.isSome_iff_exists.mp (h peer (by simp) hn).1
        obtain ⟨k, hk⟩ := Option.isSome_iff_exists.mp (h peer (by simp) hn).2
        obtain ⟨v, hv⟩ := ih (fun t ht hnt => h t (by simp [ht]) hnt)
        refine ⟨.addWgPeer ep ((lookupPair ports (peer.name, s.name)).getD 0)
          peer.interface peer.name (peer.keepalive.getD 0) (pk k) :: v, ?_⟩
        simp only [peerStmts, if_neg hn, hep, hk, hv]

theorem peerStmts_noEndpoint (pk : String → String)
    (ports : List ((String × String) × Nat)) (s : Record) :
    ∀ l : List Record, (∀ p ∈ l, p.privkey.isSome) →
      (∃ p ∈ l, s.name ≠ p.name ∧ p.endpoint = none) →
      peerStmts pk ports s l = .error .noEndpoint := by
  intro l
  induction l with
  | nil => intro _ hex; obtain ⟨p, hp, _⟩ := hex; cases hp
  | cons peer rest ih =>
      intro hpk hex
      by_cases hn : s.name = peer.name
      · have hex2 : ∃ p ∈ rest, s.name ≠ p.name ∧ p.endpoint = none := by
          obtain ⟨w, hw, hwn, hwe⟩ := hex
          rcases List.mem_cons.mp hw with rfl | hw2
          · exact absurd hn hwn
          · exact ⟨w, hw2, hwn, hwe⟩
        simp only [peerStmts, if_pos hn]
        exact ih (fun t ht => hpk t (by simp [ht])) hex2
      · cases hpe : peer.endpoint with
        | none => simp only [peerStmts, if_neg hn, hpe]
        | some ep =>
            have hex2 : ∃ p ∈ rest, s.name ≠ p.name ∧ p.endpoint = none := by
              obtain ⟨w, hw, hwn, hwe⟩ := hex
              rcases List.mem_cons.mp hw with rfl | hw2
              · rw [hpe] at hwe; cases hwe
              · exact ⟨w, hw2, hwn, hwe⟩
            obtain ⟨k, hk⟩ :=
              Option.isSome_iff_exists.mp (hpk peer (by simp))
            simp only [peerStmts, if_neg hn, hpe, hk,
              ih (fun t ht => hpk t (by simp [ht])) hex2]

theorem exists_other_name (records : List Record)
    (hnd : (records.map (·.name)).Nodup) (hlen : 2 ≤ records.length) :
    ∀ s ∈ records, ∃ p ∈ records, s.name ≠ p.name := by
  intro s hs
  match records with
  | [] => cases hs
  | [a] => simp at hlen
  | a :: b :: rest =>
      have hab : a.name ≠ b.name := by
        have := (List.nodup_cons.mp hnd).1
        simp only [List.map_cons, List.mem_cons] at this
        intro h; exact this (Or.inl h)
      by_cases h : s.name = a.name
      · exact ⟨b, by simp, by rw [h]; exact hab⟩
      · exact ⟨a, by simp, h⟩

theorem peersStage_noEndpoint (pk : String → String)
    (ports : List ((String × String) × Nat)) (records : List Record)
    (hnd : (records.map (·.name)).Nodup) (hlen : 2 ≤ records.length)
    (hpk : ∀ r ∈ records, r.privkey.isSome)
    (hex : ∃ r ∈ records, r.endpoint = none) :
    peersStage pk ports records records = .error .noEndpoint := by
  match records, hnd, hlen, hpk, hex with
  | [], _, hlen, _, _ => simp at hlen
  | [a], _, hlen, _, _ => simp at hlen
  | s :: t :: rest, hnd, hlen, hpk, hex =>
    by_cases hcase : ∃ p ∈ s :: t :: rest, s.name ≠ p.name ∧ p.endpoint = none
    · have h1 := peerStmts_noEndpoint pk ports s (s :: t :: rest) hpk hcase
      simp only [peersStage, h1]
    · push_neg at hcase
      obtain ⟨w, hw, hwe⟩ := hex
      have hsw : s.name = w.name := by
        by_contra hne
        exact (hcase w hw hne) hwe
      have hws : w = s := by
        have hinj := List.inj_on_of_nodup_map hnd
        exact hinj hw (by simp) hsw.symm
      have hse : s.endpoint = none := hws ▸ hwe
      have hok := peerStmts_isOk pk ports s (s :: t :: rest)
        (fun p hp hnp => ⟨Option.ne_none_iff_isSome.mp (hcase p hp hnp), hpk p hp⟩)
      obtain ⟨v, hv⟩ := hok
      have hts : t.name ≠ s.name := by
        have := (List.nodup_cons.mp hnd).1
        simp only [List.map_cons, List.mem_cons] at this
        intro h; exact this (Or.inl h.symm)
      have h2 := peerStmts_noEndpoint pk ports t (s :: t :: rest)
        hpk ⟨s, by simp, hts, hse⟩
      simp only [peersStage, hv, h2]

/-- C8 (corrected): base-mesh generation does abort the whole run — no
output document is produced — when any record is missing its port_min,
private key, or endpoint, but the resulting errors (`no min port set`,
`missing privkey`, `no endpoint address`, main.rs lines 287, 293/317, 313)
are fixed strings that do not identify the offending node: they carry no
data at all, so the same error value results whichever node offends (the
counterexample shows two runs differing only in the offender's name
producing identical errors). -/
theorem c8_abort_on_missing (pk : String → String) (entropy : Nat → Nat)
    (start : IpAddr) (ospf evpn : Bool) (asNum : Nat) (cliVlans : Option (List Nat))
    (anycastAddrs : Option (List IpAddr)) (records : List Record)
    (hnd : (records.map (·.name)).Nodup) (hlen : 2 ≤ records.length) :
    ((∀ r ∈ records, r.privkey.isSome) → (∃ r ∈ records, r.port_min = none) →
      genConfig pk entropy start ospf evpn asNum cliVlans anycastAddrs records
        = .error .noMinPort) ∧
    ((∀ r ∈ records, r.port_min.isSome) → (∃ r ∈ records, r.privkey = none) →
      genConfig pk entropy start ospf evpn asNum cliVlans anycastAddrs records
        = .error .missingPrivkey) ∧
    ((∀ r ∈ records, r.port_min.isSome) → (∀ r ∈ records, r.privkey.isSome) →
      (∃ r ∈ records, r.endpoint = none) →
      genConfig pk entropy start ospf evpn asNum cliVlans anycastAddrs records
        = .error .noEndpoint) := by
  refine ⟨?_, ?_, ?_⟩
  · intro hpk hex
    simp only [genConfig, wgIfStage_noMinPort records records hpk hex]
  · intro hpm hex
    simp only [genConfig, wgIfStage_missingPrivkey records records hpm
      (exists_other_name records hnd hlen) hex]
  · intro hpm hpk hex
    obtain ⟨⟨s2, ports⟩, hok⟩ :=
      wgIfStage_isOk records records (fun s hs => ⟨hpm s hs, hpk s hs⟩)
    simp only [genConfig, hok,
      peersStage_noEndpoint pk ports records hnd hlen hpk hex]

/-- C8 counterexample to the "identifies the offending node by name" part:
renaming the offending node changes nothing about the error — the same
field-less error value results (and likewise for a missing key and a
missing endpoint, the fixed messages carry no node name). -/
theorem c8_counterexample :
    genConfig (fun s => s) (fun _ => 0) (IpAddr.v4 100) false false 0 none none
        [cAnoPort, cB] = .error .noMinPort ∧
    genConfig (fun s => s) (fun _ => 0) (IpAddr.v4 100) false false 0 none none
        [cZnoPort, cB] = .error .noMinPort ∧
    genConfig (fun s => s) (fun _ => 0) (IpAddr.v4 100) false false 0 none none
        [cAnoKey, cB] = .error .missingPrivkey ∧
    genConfig (fun s => s) (fun _ => 0) (IpAddr.v4 100) false false 0 none none
        [cAnoEp, cB] = .error .noEndpoint := by
  decide

/-- C8 witness: the abort conclusions at concrete two-node record sets, one
per missing field. -/
theorem c8_witness :
    genConfig (fun s => s) (fun _ => 0) (IpAddr.v4 100) false false 0 none none
        [cAnoPort, cB] = .error .noMinPort ∧
    genConfig (fun s => s) (fun _ => 0) (IpAddr.v4 100) false false 0 none none
        [cAnoKey, cB] = .error .missingPrivkey ∧
    genConfig (fun s => s) (fun _ => 0) (IpAddr.v4 100) false false 0 none none
        [cAnoEp, cB] = .error .noEndpoint :=
  ⟨(c8_abort_on_missing (fun s => s) (fun _ => 0) (IpAddr.v4 100) false false 0
      none none [cAnoPort, cB] (by decide) (by decide)).1 (by decide) (by decide),
   (c8_abort_on_missing (fun s => s) (fun _ => 0) (IpAddr.v4 100) false false 0
      none none [cAnoKey, cB] (by decide) (by decide)).2.1 (by decide) (by decide),
   (c8_abort_on_missing (fun s => s) (fun _ => 0) (IpAddr.v4 100) false false 0
      none none [cAnoEp, cB] (by decide) (by decide)).2.2 (by decide) (by decide)
     (by decide)⟩

/-! ## Helper lemmas: extracting one statement kind from a document -/

theorem filterMap_skipCons (f : Stmt → Option α) (x : Stmt) (l : List Stmt)
    (h : f x = none) :
    List.filterMap f (x :: l) = List.filterMap f l := by
  simp [List.filterMap_cons, h]

theorem filterMap_skip_append (f : Stmt → Option α) (adds l : List Stmt)
    (h : ∀ x ∈ adds, f x = none) :
    List.filterMap f (adds ++ l) = List.filterMap f l := by
  rw [List.filterMap_append, List.filterMap_eq_nil_iff.mpr h, List.nil_append]

theorem filterMap_ifOpt (f : Stmt → Option α) (b : Bool) (chunk l : List Stmt)
    (h : ∀ x ∈ chunk, f x = none) :
    List.filterMap f ((if b then chunk else []) ++ l) = List.filterMap f l := by
  cases b
  · rw [if_neg Bool.false_ne_true, List.nil_append]
  · rw [if_pos rfl]
    exact filterMap_skip_append f chunk l h

theorem wgIfChunk_noneAll (f : Stmt → Option α) (records : List Record) (r : Record)
    (hf : ∀ a b c, f (Stmt.addWgIf a b c) = none) :
    ∀ x ∈ wgIfChunk records r, f x = none := by
  intro x hx
  obtain ⟨a, b, c, rfl⟩ := wgIfChunk_shape records r x hx
  exact hf a b c

theorem peerChunk_noneAll (f : Stmt → Option α) (pk : String → String)
    (records : List Record) (r : Record)
    (hf : ∀ a b c d e g, f (Stmt.addWgPeer a b c d e g) = none) :
    ∀ x ∈ peerChunk pk records r, f x = none := by
  intro x hx
  obtain ⟨a, b, c, d, e, g, rfl⟩ := peerChunk_shape pk records r x hx
  exact hf a b c d e g

theorem ptpChunk_noneAll (f : Stmt → Option α) (records : List Record)
    (start : IpAddr) (r : Record)
    (hf : ∀ a i, f (Stmt.addIpAddr a 31 i) = none) :
    ∀ x ∈ ptpChunk records start r, f x = none := by
  intro x hx
  obtain ⟨a, i, rfl⟩ := ptpChunk_shape records start r x hx
  exact hf a i

theorem ospfChunk_noneAll (f : Stmt → Option α) (records : List Record) (r : Record)
    (hsec : ∀ p, f (Stmt.secHeader p) = none) (hrm : f Stmt.removeTag = none)
    (hoi : ∀ a, f (Stmt.addOspfInstance a) = none)
    (hoa : f Stmt.addOspfArea = none) (hol : f Stmt.addOspfLoTemplate = none)
    (hop : ∀ s, f (Stmt.addOspfPtpTemplate s) = none) :
    ∀ x ∈ ospfChunk records r, f x = none := by
  intro x hx
  fin_cases hx <;> first
    | exact hsec _
    | exact hrm
    | exact hoi _
    | exact hoa
    | exact hol
    | exact hop _

theorem vxlanChunk_noneAll (f : Stmt → Option α) (r : Record)
    (hf : ∀ a b, f (Stmt.addVxlan a b) = none) :
    ∀ x ∈ vxlanChunk r, f x = none := by
  intro x hx
  obtain ⟨a, b, rfl⟩ := vxlanChunk_shape r x hx
  exact hf a b

theorem bridgePortChunk_noneAll (f : Stmt → Option α) (r : Record)
    (hf : ∀ a b, f (Stmt.addBridgePort a b) = none) :
    ∀ x ∈ bridgePortChunk r, f x = none := by
  intro x hx
  obtain ⟨a, b, rfl⟩ := bridgePortChunk_shape r x hx
  exact hf a b

theorem bgpConnStmts_noneAll (f : Stmt → Option α) (asNum : Nat)
    (records : List Record) (r : Record)
    (hf : ∀ a b c d, f (Stmt.addBgpConn a b c d) = none) :
    ∀ x ∈ bgpConnStmts asNum records r, f x = none := by
  intro x hx
  obtain ⟨a, b, c, d, rfl⟩ := bgpConnStmts_shape asNum records r x hx
  exact hf a b c d

theorem bgpEvpnChunk_noneAll (f : Stmt → Option α) (asNum : Nat) (r : Record)
    (hf : ∀ a b, f (Stmt.addBgpEvpn a b) = none) :
    ∀ x ∈ bgpEvpnChunk asNum r, f x = none := by
  intro x hx
  obtain ⟨a, b, rfl⟩ := bgpEvpnChunk_shape asNum r x hx
  exact hf a b

theorem evpnChunk_noneAll (f : Stmt → Option α) (asNum : Nat)
    (records : List Record) (r : Record)
    (hsec : ∀ p, f (Stmt.secHeader p) = none) (hrm : f Stmt.removeTag = none)
    (hbr : f Stmt.addBridge = none)
    (hbp : ∀ a b, f (Stmt.addBridgePort a b) = none)
    (hvx : ∀ a b, f (Stmt.addVxlan a b) = none)
    (hbi : ∀ a b, f (Stmt.addBgpInstance a b) = none)
    (hbc : ∀ a b c d, f (Stmt.addBgpConn a b c d) = none)
    (hbe : ∀ a b, f (Stmt.addBgpEvpn a b) = none) :
    ∀ x ∈ evpnChunk asNum records r, f x = none := by
  unfold evpnChunk
  refine List.forall_mem_append.mpr ⟨List.forall_mem_append.mpr
    ⟨List.forall_mem_append.mpr ⟨List.forall_mem_append.mpr
    ⟨List.forall_mem_append.mpr ⟨List.forall_mem_append.mpr
    ⟨List.forall_mem_append.mpr ⟨?_, ?_⟩, ?_⟩, ?_⟩, ?_⟩, ?_⟩, ?_⟩, ?_⟩
  · intro x hx
    fin_cases hx <;> first | exact hsec _ | exact hrm | exact hbr
  · exact bridgePortChunk_noneAll f r hbp
  · intro x hx
    fin_cases hx <;> first | exact hsec _ | exact hrm
  · exact vxlanChunk_noneAll f r hvx
  · intro x hx
    fin_cases hx <;> first | exact hsec _ | exact hrm | exact hbi _ _
  · exact bgpConnStmts_noneAll f asNum records r hbc
  · intro x hx
    fin_cases hx <;> first | exact hsec _ | exact hrm
  · exact bgpEvpnChunk_noneAll f asNum r hbe

theorem vlanIfChunk_noneAll (f : Stmt → Option α) (r : Record)
    (hf : ∀ a, f (Stmt.addVlanIf a) = none) :
    ∀ x ∈ vlanIfChunk r, f x = none := by
  intro x hx
  obtain ⟨a, rfl⟩ := vlanIfChunk_shape r x hx
  exact hf a

theorem vlanIpChunk_noneAll (f : Stmt → Option α) (r : Record)
    (hf : ∀ a b, f (Stmt.addVlanIp a b) = none) :
    ∀ x ∈ vlanIpChunk r, f x = none := by
  intro x hx
  obtain ⟨a, b, rfl⟩ := vlanIpChunk_shape r x hx
  exact hf a b

theorem anycastIps_noneAll (f : Stmt → Option α) (vs : List Nat) (ads : List IpAddr)
    (hf : ∀ a b, f (Stmt.addAnycastIp a b) = none) :
    ∀ x ∈ (vs.zip ads).map (fun p => Stmt.addAnycastIp p.1 p.2), f x = none := by
  intro x hx
  obtain ⟨a, b, rfl⟩ := anycastIps_shape vs ads x hx
  exact hf a b

theorem filterMap_macvlanChunk (entropy : Nat → Nat) (vs : List Nat)
    (l : List Stmt) :
    List.filterMap macPair (macvlanChunk entropy vs ++ l)
      = vs.enum.map (fun kv => (kv.2, mkMac (entropy kv.1)))
        ++ List.filterMap macPair l := by
  unfold macvlanChunk
  generalize vs.enum = es
  induction es with
  | nil => rfl
  | cons a t ih =>
      simp only [List.map_cons, List.cons_append, List.filterMap_cons, macPair, ih]

theorem macvlanPairs_docFor (pk : String → String) (entropy : Nat → Nat)
    (start : IpAddr) (ospf evpn : Bool) (asNum : Nat) (records : List Record)
    (r : Record) (vs : List Nat) (ads : List IpAddr)
    (hlen : vs.length = ads.length) :
    macvlanPairs
      (docFor pk entropy start ospf evpn asNum (some vs) (some ads) records r)
      = vs.enum.map (fun kv => (kv.2, mkMac (entropy kv.1))) := by
  unfold macvlanPairs docFor
  simp only [List.append_assoc, List.cons_append, List.nil_append]
  rw [filterMap_skipCons, filterMap_skipCons, filterMap_skipCons,
      filterMap_skip_append,
      filterMap_skipCons, filterMap_skipCons, filterMap_skip_append,
      filterMap_skipCons, filterMap_skipCons, filterMap_skipCons,
      filterMap_skip_append,
      filterMap_ifOpt, filterMap_ifOpt,
      filterMap_skipCons, filterMap_skipCons, filterMap_skip_append,
      filterMap_skipCons, filterMap_skip_append]
  · unfold anycastChunk
    dsimp only
    rw [if_pos hlen]
    simp only [List.append_assoc, List.cons_append, List.nil_append]
    rw [filterMap_skipCons, filterMap_skipCons, filterMap_macvlanChunk,
        filterMap_skipCons,
        List.filterMap_eq_nil_iff.mpr
          (anycastIps_noneAll macPair vs ads (fun a b => rfl)),
        List.append_nil]
    all_goals rfl
  all_goals first
    | rfl
    | exact wgIfChunk_noneAll macPair records r (fun a b c => rfl)
    | exact peerChunk_noneAll macPair pk records r (fun a b c d e g => rfl)
    | exact ptpChunk_noneAll macPair records start r (fun a i => rfl)
    | exact ospfChunk_noneAll macPair records r (fun p => rfl) rfl (fun a => rfl)
        rfl rfl (fun s => rfl)
    | exact evpnChunk_noneAll macPair asNum records r (fun p => rfl) rfl rfl
        (fun a b => rfl) (fun a b => rfl) (fun a b => rfl) (fun a b c d => rfl)
        (fun a b => rfl)
    | exact vlanIfChunk_noneAll macPair r (fun a => rfl)
    | exact vlanIpChunk_noneAll macPair r (fun a b => rfl)

set_option maxRecDepth 4000 in
theorem mac_bits :
    ∀ x < 256, ((x ||| 2) &&& 254) &&& 2 = 2 ∧ ((x ||| 2) &&& 254) &&& 1 = 0 := by
  decide

theorem macByte0_mkMac (v : Nat) :
    macByte0 (mkMac v) = (v / 2 ^ 40 % 256 ||| 2) &&& 254 := by
  unfold macByte0 mkMac
  generalize (v / 2 ^ 40 % 256 ||| 2) &&& 254 = b
  have hr : v % 2 ^ 40 < 2 ^ 40 := Nat.mod_lt _ (by norm_num)
  omega

/-- C9 (confirmed): when the anycast stage runs (both lists supplied, equal
lengths) and generation succeeds, every node's document carries exactly one
macvlan add per listed VLAN, in list order, with the very same MAC value in
every document (the `k`-th RNG fill for the `k`-th VLAN), and each such MAC
has the locally-administered bit (0x02 of the first octet) set and the
multicast bit (0x01) clear. -/
theorem c9_anycast_mac (pk : String → String) (entropy : Nat → Nat)
    (start : IpAddr) (ospf evpn : Bool) (asNum : Nat) (records : List Record)
    (vs : List Nat) (ads : List IpAddr)
    (hnd : (records.map (·.name)).Nodup)
    (hpm : ∀ r ∈ records, ∃ p, r.port_min = some p ∧ p < 2 ^ 16)
    (hpk : ∀ r ∈ records, r.privkey.isSome)
    (hep : ∀ r ∈ records, r.endpoint.isSome)
    (hv : ∀ r ∈ records, r.vlan.isSome)
    (hvi : evpn = true → ∀ r ∈ records, r.vlan_ifs.isSome)
    (hlen : vs.length = ads.length) :
    ∃ out, genConfig pk entropy start ospf evpn asNum (some vs) (some ads) records
        = .ok out ∧
      (∀ e ∈ out.docs,
        macvlanPairs e.2 = vs.enum.map (fun kv => (kv.2, mkMac (entropy kv.1)))) ∧
      (∀ k, macByte0 (mkMac (entropy k)) &&& 2 = 2 ∧
        macByte0 (mkMac (entropy k)) &&& 1 = 0) := by
  refine ⟨_, genConfig_char pk entropy start ospf evpn asNum (some vs) (some ads)
    records hnd hpm hpk hep hv hvi
    (fun vs' ads' h1 h2 => by cases h1; cases h2; exact hlen), ?_, ?_⟩
  · intro e he
    obtain ⟨r, hr, rfl⟩ := List.mem_map.mp he
    exact macvlanPairs_docFor pk entropy start ospf evpn asNum records r vs ads hlen
  · intro k
    rw [macByte0_mkMac]
    exact mac_bits _ (Nat.mod_lt _ (by norm_num))

/-- C9 witness: a concrete two-node run with one anycast VLAN. -/
theorem c9_witness :
    ∃ out, genConfig (fun s => s) (fun _ => 0) (IpAddr.v4 100) false false 0
        (some [5]) (some [IpAddr.v4 9]) [cA, cB] = .ok out ∧
      (∀ e ∈ out.docs, macvlanPairs e.2 = [(5, mkMac 0)]) ∧
      (∀ _ : Nat, macByte0 (mkMac 0) &&& 2 = 2 ∧ macByte0 (mkMac 0) &&& 1 = 0) :=
  c9_anycast_mac (fun s => s) (fun _ => 0) (IpAddr.v4 100) false false 0 [cA, cB]
    [5] [IpAddr.v4 9] (by decide)
    (by intro r hr; fin_cases hr <;> exact ⟨1000, rfl, by decide⟩)
    (by decide) (by decide) (by decide) (by decide) (by decide)

/-! ## Helper lemmas: bridge-port pairs of a document -/

theorem anycastChunk_noneAll (f : Stmt → Option α) (entropy : Nat → Nat)
    (cliVlans : Option (List Nat)) (anycastAddrs : Option (List IpAddr))
    (hsec : ∀ p, f (Stmt.secHeader p) = none) (hrm : f Stmt.removeTag = none)
    (hmv : ∀ v m, f (Stmt.addMacvlan v m) = none)
    (hai : ∀ v a, f (Stmt.addAnycastIp v a) = none) :
    ∀ x ∈ anycastChunk entropy cliVlans anycastAddrs, f x = none := by
  unfold anycastChunk
  rcases cliVlans with _ | vs <;> rcases anycastAddrs with _ | ads
  · intro x hx; exact absurd hx (List.not_mem_nil x)
  · intro x hx; exact absurd hx (List.not_mem_nil x)
  · intro x hx; exact absurd hx (List.not_mem_nil x)
  dsimp only
  by_cases hl : vs.length = ads.length
  · rw [if_pos hl]
    refine List.forall_mem_append.mpr ⟨List.forall_mem_append.mpr
      ⟨List.forall_mem_append.mpr ⟨?_, ?_⟩, ?_⟩, ?_⟩
    · intro x hx
      fin_cases hx <;> first | exact hsec _ | exact hrm
    · intro x hx
      obtain ⟨a, b, rfl⟩ := macvlanChunk_shape entropy vs x hx
      exact hmv a b
    · intro x hx
      fin_cases hx
      exact hsec _
    · exact anycastIps_noneAll f vs ads hai
  · rw [if_neg hl]
    intro x hx
    exact absurd hx (List.not_mem_nil x)

theorem filterMap_bridgePortChunk (r : Record) (l : List Stmt) :
    List.filterMap bpPair (bridgePortChunk r ++ l)
      = (r.vlan_ifs.getD []).zip (r.vlan.getD []) ++ List.filterMap bpPair l := by
  unfold bridgePortChunk
  generalize (r.vlan_ifs.getD []).zip (r.vlan.getD []) = ps
  induction ps with
  | nil => rfl
  | cons a t ih =>
      simp only [List.map_cons, List.cons_append, List.filterMap_cons, bpPair, ih]

theorem filterMap_bp_evpnChunk (asNum : Nat) (records : List Record) (r : Record)
    (l : List Stmt) :
    List.filterMap bpPair (evpnChunk asNum records r ++ l)
      = (r.vlan_ifs.getD []).zip (r.vlan.getD []) ++ List.filterMap bpPair l := by
  unfold evpnChunk
  simp only [List.append_assoc, List.cons_append, List.nil_append]
  rw [filterMap_skipCons, filterMap_skipCons, filterMap_skipCons,
      filterMap_skipCons, filterMap_skipCons,
      filterMap_bridgePortChunk,
      filterMap_skipCons, filterMap_skipCons, filterMap_skip_append,
      filterMap_skipCons, filterMap_skipCons, filterMap_skipCons,
      filterMap_skipCons, filterMap_skipCons, filterMap_skip_append,
      filterMap_skipCons, filterMap_skipCons, filterMap_skip_append]
  all_goals first
    | rfl
    | exact vxlanChunk_noneAll bpPair r (fun a b => rfl)
    | exact bgpConnStmts_noneAll bpPair asNum records r (fun a b c d => rfl)
    | exact bgpEvpnChunk_noneAll bpPair asNum r (fun a b => rfl)

theorem bridgePortPairs_docFor (pk : String → String) (entropy : Nat → Nat)
    (start : IpAddr) (ospf : Bool) (asNum : Nat) (cliVlans : Option (List Nat))
    (anycastAddrs : Option (List IpAddr)) (records : List Record) (r : Record) :
    bridgePortPairs
      (docFor pk entropy start ospf true asNum cliVlans anycastAddrs records r)
      = (r.vlan_ifs.getD []).zip (r.vlan.getD []) := by
  unfold bridgePortPairs docFor
  simp only [List.append_assoc, List.cons_append, List.nil_append]
  rw [filterMap_skipCons, filterMap_skipCons, filterMap_skipCons,
      filterMap_skip_append,
      filterMap_skipCons, filterMap_skipCons, filterMap_skip_append,
      filterMap_skipCons, filterMap_skipCons, filterMap_skipCons,
      filterMap_skip_append,
      filterMap_ifOpt, if_pos True.intro, filterMap_bp_evpnChunk,
      filterMap_skipCons, filterMap_skipCons, filterMap_skip_append,
      filterMap_skipCons, filterMap_skip_append,
      List.filterMap_eq_nil_iff.mpr
        (anycastChunk_noneAll bpPair entropy cliVlans anycastAddrs
          (fun p => rfl) rfl (fun v m => rfl) (fun v a => rfl)),
      List.append_nil]
  all_goals first
    | rfl
    | exact wgIfChunk_noneAll bpPair records r (fun a b c => rfl)
    | exact peerChunk_noneAll bpPair pk records r (fun a b c d e g => rfl)
    | exact ptpChunk_noneAll bpPair records start r (fun a i => rfl)
    | exact ospfChunk_noneAll bpPair records r (fun p => rfl) rfl (fun a => rfl)
        rfl rfl (fun s => rfl)
    | exact vlanIfChunk_noneAll bpPair r (fun a => rfl)
    | exact vlanIpChunk_noneAll bpPair r (fun a b => rfl)

/-- C10 (confirmed): with EVPN enabled, a record whose `vlan_ifs` and `vlan`
lists have different lengths raises no error — the bridge-port stage pairs
the two lists index-wise via `zip`, which silently truncates to the shorter
list; the emitted bridge-port pairs are exactly `vlan_ifs.zip vlan`, whose
length is the minimum of the two list lengths. -/
theorem c10_bridge_zip (pk : String → String) (entropy : Nat → Nat)
    (start : IpAddr) (ospf : Bool) (asNum : Nat) (cliVlans : Option (List Nat))
    (anycastAddrs : Option (List IpAddr)) (records : List Record)
    (hnd : (records.map (·.name)).Nodup)
    (hpm : ∀ r ∈ records, ∃ p, r.port_min = some p ∧ p < 2 ^ 16)
    (hpk : ∀ r ∈ records, r.privkey.isSome)
    (hep : ∀ r ∈ records, r.endpoint.isSome)
    (hv : ∀ r ∈ records, r.vlan.isSome)
    (hvi : ∀ r ∈ records, r.vlan_ifs.isSome)
    (hany : ∀ vs ads, cliVlans = some vs → anycastAddrs = some ads →
      vs.length = ads.length) :
    ∃ out, genConfig pk entropy start ospf true asNum cliVlans anycastAddrs records
        = .ok out ∧ ∀ r ∈ records,
      (r.name, docFor pk entropy start ospf true asNum cliVlans anycastAddrs
        records r) ∈ out.docs ∧
      bridgePortPairs (docFor pk entropy start ospf true asNum cliVlans
        anycastAddrs records r) = (r.vlan_ifs.getD []).zip (r.vlan.getD []) ∧
      ((r.vlan_ifs.getD []).zip (r.vlan.getD [])).length
        = min (r.vlan_ifs.getD []).length (r.vlan.getD []).length := by
  refine ⟨_, genConfig_char pk entropy start ospf true asNum cliVlans anycastAddrs
    records hnd hpm hpk hep hv (fun _ => hvi) hany, ?_⟩
  intro r hr
  exact ⟨List.mem_map_of_mem _ hr,
    bridgePortPairs_docFor pk entropy start ospf asNum cliVlans anycastAddrs
      records r,
    List.length_zip _ _⟩

/-- C10 witness: a concrete run in which one node lists two `vlan_ifs` but
only one vlan — generation succeeds and that node gets exactly one
bridge-port pair (the surplus interface is dropped). -/
theorem c10_witness :
    ∃ out, genConfig (fun s => s) (fun _ => 0) (IpAddr.v4 100) false true 65000
        none none [cAmism, cB] = .ok out ∧ ∀ r ∈ [cAmism, cB],
      (r.name, docFor (fun s => s) (fun _ => 0) (IpAddr.v4 100) false true 65000
        none none [cAmism, cB] r) ∈ out.docs ∧
      bridgePortPairs (docFor (fun s => s) (fun _ => 0) (IpAddr.v4 100) false true
        65000 none none [cAmism, cB] r)
        = (r.vlan_ifs.getD []).zip (r.vlan.getD []) ∧
      ((r.vlan_ifs.getD []).zip (r.vlan.getD [])).length
        = min (r.vlan_ifs.getD []).length (r.vlan.getD []).length :=
  c10_bridge_zip (fun s => s) (fun _ => 0) (IpAddr.v4 100) false 65000 none none
    [cAmism, cB] (by decide)
    (by intro r hr; fin_cases hr <;> exact ⟨1000, rfl, by decide⟩)
    (by decide) (by decide) (by decide) (by decide)
    (fun vs ads h _ => Option.noConfusion h)

end Meshconf
